import Mathlib

/-!
Verification of the page-classification and extraction pipeline of the
pdf-processor repository (`src/split.py`, used by `src/main.py`).

The model is a shallow embedding of `split.py`:

* Strings are `List Char` (`Chars`).  Python's `in`, `find`, `rfind`,
  slicing, `strip`, `zfill` and `re.sub` are modelled character by
  character.
* `json.loads` is modelled by a fuel-based JSON reader producing `JValue`.
  JSON numbers are kept exactly as mantissa/decimal-exponent pairs
  `jnum m e` denoting `m * 10 ^ e` (Python parses them to int/float; the
  claims never depend on binary rounding, only on parse success and
  truthiness).
* The external collaborators (page rendering, the vision-AI call, the
  clock `datetime.now()`) are inputs of the model: each `Page` carries its
  extracted text, whether rendering succeeds, the outcome of the AI call
  and the date observed while the page is processed.
* The filesystem is a list of paths; `process_pdf` writes the uploaded
  copy under `temp/`, writes one extract per accepted page under
  `output/`, and its `finally:` block removes the uploaded copy.
* A Python exception escaping the per-page code is the `Bool` component of
  `pageStep`/`runPages`: `true` means the run-level `except:` handler is
  reached and `process_pdf` returns `([], start_sequence)`.

All definitions are structural recursion (fuel where needed) so that
concrete runs evaluate inside the kernel.
-/

abbrev Chars := List Char

namespace PdfProc

/-- The character `{` (written via its code point to keep it out of string
literals). -/
def lbrace : Char := Char.ofNat 123

/-- The character `}`. -/
def rbrace : Char := Char.ofNat 125

/-- The backtick character. -/
def btick : Char := Char.ofNat 96

/-- The single-quote character. -/
def squote : Char := Char.ofNat 39

/-- Python regex `\s` / `str.strip()` whitespace for the ASCII range
(`split.py` only ever meets ASCII whitespace here). -/
def pyWsChar (c : Char) : Bool :=
  c = ' ' || c = '\t' || c = '\n' || c = '\r' || c = '\x0b' || c = '\x0c'

/-- JSON (`json.loads`) insignificant whitespace. -/
def jsonWsChar (c : Char) : Bool :=
  c = ' ' || c = '\t' || c = '\n' || c = '\r'

/-- Decimal digit test. -/
def isDigitCh (c : Char) : Bool := '0' ≤ c && c ≤ '9'

/-- `listStartsWith cs pre` holds when `pre` is a prefix of `cs`. -/
def listStartsWith : Chars → Chars → Bool
  | _, [] => true
  | [], _ :: _ => false
  | c :: cs, p :: ps => c = p && listStartsWith cs ps

/-- Python's substring test `needle in hay`. -/
def containsSub (hay needle : Chars) : Bool :=
  match hay with
  | [] => needle.isEmpty
  | _ :: rest => listStartsWith hay needle || containsSub rest needle

/-- Index of the first occurrence of `c`, if any (`str.find` before its
`-1` encoding). -/
def firstIdxAux (c : Char) : Chars → Option Nat
  | [] => none
  | a :: as => if a = c then some 0 else (firstIdxAux c as).map (· + 1)

/-- Python `str.find(c)`: first index or `-1`. -/
def pyFind (cs : Chars) (c : Char) : Int :=
  match firstIdxAux c cs with
  | some n => (n : Int)
  | none => -1

/-- Python `str.rfind(c)`: last index or `-1`. -/
def pyRfind (cs : Chars) (c : Char) : Int :=
  match firstIdxAux c cs.reverse with
  | some n => ((cs.length : Int) - 1 - (n : Int))
  | none => -1

/-- Normalise one bound of a Python slice `s[a:b]` to an index into `s`. -/
def sliceIdx (n : Nat) (i : Int) : Nat :=
  if i < 0 then (i + (n : Int)).toNat else min i.toNat n

/-- Python slicing `s[a:b]` (negative indices count from the end). -/
def pySlice (cs : Chars) (a b : Int) : Chars :=
  (cs.take (sliceIdx cs.length b)).drop (sliceIdx cs.length a)

/-- Python `str.strip()` with no argument. -/
def stripPy (cs : Chars) : Chars :=
  ((cs.dropWhile pyWsChar).reverse.dropWhile pyWsChar).reverse

/-- Value of a decimal digit character. -/
def digitValCh (c : Char) : Nat := c.toNat - 48

/-- Value of a most-significant-first digit string. -/
def digitsToNat (ds : Chars) : Nat := ds.foldl (fun a c => a * 10 + digitValCh c) 0

/-- The decimal digit characters. -/
def digitChar : Nat → Char
  | 0 => '0' | 1 => '1' | 2 => '2' | 3 => '3' | 4 => '4'
  | 5 => '5' | 6 => '6' | 7 => '7' | 8 => '8' | 9 => '9'
  | _ => '*'

/-- Fuelled decimal rendering of a natural number (`str(n)` for `n ≥ 0`),
most significant digit first. -/
def natDigitsAux : Nat → Nat → Chars
  | 0, _ => []
  | fuel + 1, n =>
    if n < 10 then [digitChar n]
    else natDigitsAux fuel (n / 10) ++ [digitChar (n % 10)]

/-- Python `str(n)` for a natural number. -/
def natDigits (n : Nat) : Chars := natDigitsAux (n + 1) n

/-- Python `str(i)` for an integer. -/
def intStr (i : Int) : Chars :=
  if i < 0 then '-' :: natDigits i.natAbs else natDigits i.toNat

/-- Python `str(n).zfill(2)`: pad the decimal rendering on the left with
zeros to at least two characters. -/
def zfill2 (n : Nat) : Chars :=
  let ds := natDigits n
  if ds.length < 2 then '0' :: ds else ds

/-! ## JSON values and `json.loads` (`split.py` line 99) -/

/-- A decoded JSON value.  `jnum m e` denotes the number `m * 10 ^ e`,
keeping the decimal literal exactly (Python decodes to int when `e = 0`
and to float otherwise). -/
inductive JValue where
  | jnull
  | jbool (b : Bool)
  | jnum (m : Int) (e : Int)
  | jstr (s : Chars)
  | jarr (elems : List JValue)
  | jobj (fields : List (Chars × JValue))

/-- Python truthiness of a decoded JSON value (`if ai_results:`,
`if chosen_name and currency and payment_total:`). -/
def truthy : JValue → Bool
  | .jnull => false
  | .jbool b => b
  | .jnum m _ => m ≠ 0
  | .jstr s => !s.isEmpty
  | .jarr xs => !xs.isEmpty
  | .jobj fs => !fs.isEmpty

/-- `isinstance(v, dict)`. -/
def isDict : JValue → Bool
  | .jobj _ => true
  | _ => false

/-- Association lookup where the last binding of a key wins, matching the
way `json.loads` builds a `dict` (later duplicate keys overwrite). -/
def lookupLast : List (Chars × JValue) → Chars → Option JValue
  | [], _ => none
  | (k0, v0) :: rest, k =>
    match lookupLast rest k with
    | some r => some r
    | none => if k0 = k then some v0 else none

/-- Python `d.get(k)` on a decoded JSON value (`None` when absent or when
the value is not a dict). -/
def jget (v : JValue) (k : Chars) : Option JValue :=
  match v with
  | .jobj fs => lookupLast fs k
  | _ => none

/-- Hexadecimal digit value for `\uXXXX` escapes. -/
def hexValCh (c : Char) : Option Nat :=
  if isDigitCh c then some (c.toNat - 48)
  else if 'a' ≤ c && c ≤ 'f' then some (c.toNat - 87)
  else if 'A' ≤ c && c ≤ 'F' then some (c.toNat - 55)
  else none

/-- Four hex digits of a `\uXXXX` escape. -/
def parseHex4 (cs : Chars) : Option (Nat × Chars) :=
  match cs with
  | a :: b :: c :: d :: rest =>
    match hexValCh a, hexValCh b, hexValCh c, hexValCh d with
    | some x, some y, some z, some w => some (((x * 16 + y) * 16 + z) * 16 + w, rest)
    | _, _, _, _ => none
  | _ => none

/-- Body of a JSON string after the opening quote; returns the decoded
characters and the remainder after the closing quote.  Surrogate pairs in
`\u` escapes are not recombined (irrelevant to the claims). -/
def parseJStringAux : Nat → Chars → Option (Chars × Chars)
  | 0, _ => none
  | fuel + 1, cs =>
    match cs with
    | [] => none
    | c :: rest =>
      if c = '"' then some ([], rest)
      else if c = '\\' then
        match rest with
        | [] => none
        | e :: rest2 =>
          if e = '"' then (parseJStringAux fuel rest2).map (fun pr => ('"' :: pr.1, pr.2))
          else if e = '\\' then (parseJStringAux fuel rest2).map (fun pr => ('\\' :: pr.1, pr.2))
          else if e = '/' then (parseJStringAux fuel rest2).map (fun pr => ('/' :: pr.1, pr.2))
          else if e = 'b' then (parseJStringAux fuel rest2).map (fun pr => ('\x08' :: pr.1, pr.2))
          else if e = 'f' then (parseJStringAux fuel rest2).map (fun pr => ('\x0c' :: pr.1, pr.2))
          else if e = 'n' then (parseJStringAux fuel rest2).map (fun pr => ('\n' :: pr.1, pr.2))
          else if e = 'r' then (parseJStringAux fuel rest2).map (fun pr => ('\r' :: pr.1, pr.2))
          else if e = 't' then (parseJStringAux fuel rest2).map (fun pr => ('\t' :: pr.1, pr.2))
          else if e = 'u' then
            match parseHex4 rest2 with
            | some (n, rest3) => (parseJStringAux fuel rest3).map (fun pr => (Char.ofNat n :: pr.1, pr.2))
            | none => none
          else none
      else if c.toNat < 32 then none
      else (parseJStringAux fuel rest).map (fun pr => (c :: pr.1, pr.2))

/-- JSON string body starting after the opening quote. -/
def parseJString (cs : Chars) : Option (Chars × Chars) :=
  parseJStringAux (cs.length + 1) cs

/-- Optional exponent part `e`/`E` with sign; absent exponent is `0`.
Shared by the JSON number grammar and Python's `float()`. -/
def floatExp (cs : Chars) : Option (Int × Chars) :=
  match cs with
  | [] => some (0, [])
  | c :: rest =>
    if c = 'e' || c = 'E' then
      let pr : Int × Chars :=
        if rest.head? = some '+' then (1, rest.drop 1)
        else if rest.head? = some '-' then (-1, rest.drop 1)
        else (1, rest)
      let ds := pr.2.takeWhile isDigitCh
      if ds.isEmpty then none
      else some (pr.1 * (digitsToNat ds : Int), pr.2.drop ds.length)
    else some (0, cs)

/-- JSON number grammar `-? int frac? exp?` (no leading zeros, no bare
`.5`/`5.`), returning mantissa, decimal exponent and the remainder. -/
def parseJNumber (cs : Chars) : Option ((Int × Int) × Chars) :=
  let pr : Bool × Chars := if cs.head? = some '-' then (true, cs.drop 1) else (false, cs)
  let ip := pr.2.takeWhile isDigitCh
  if ip.isEmpty then none
  else if 2 ≤ ip.length && ip.head? = some '0' then none
  else
    let cs2 := pr.2.drop ip.length
    let fpr : Chars × Chars :=
      if cs2.head? = some '.' then
        ((cs2.drop 1).takeWhile isDigitCh, (cs2.drop 1).dropWhile isDigitCh)
      else ([], cs2)
    if cs2.head? = some '.' && fpr.1.isEmpty then none
    else
      match floatExp fpr.2 with
      | none => none
      | some (ex, rest) =>
        let mAbs : Nat := digitsToNat (ip ++ fpr.1)
        some ((if pr.1 then -(mAbs : Int) else (mAbs : Int), ex - (fpr.1.length : Int)), rest)

mutual

/-- One JSON value with leading whitespace, returning the remainder. -/
def parseJValueAux : Nat → Chars → Option (JValue × Chars)
  | 0, _ => none
  | fuel + 1, cs0 =>
    let cs := cs0.dropWhile jsonWsChar
    match cs with
    | [] => none
    | c :: rest =>
      if c = lbrace then
        let csm := rest.dropWhile jsonWsChar
        if csm.head? = some rbrace then some (.jobj [], csm.drop 1)
        else (parseJMembersAux fuel csm).map (fun pr => (.jobj pr.1, pr.2))
      else if c = '[' then
        let csm := rest.dropWhile jsonWsChar
        if csm.head? = some ']' then some (.jarr [], csm.drop 1)
        else (parseJElemsAux fuel csm).map (fun pr => (.jarr pr.1, pr.2))
      else if c = '"' then
        (parseJString rest).map (fun pr => (.jstr pr.1, pr.2))
      else if listStartsWith cs ("true".data) then some (.jbool true, cs.drop 4)
      else if listStartsWith cs ("false".data) then some (.jbool false, cs.drop 5)
      else if listStartsWith cs ("null".data) then some (.jnull, cs.drop 4)
      else (parseJNumber cs).map (fun pr => (.jnum pr.1.1 pr.1.2, pr.2))

/-- Members of a JSON object after its first non-whitespace character
(which is not the closing brace). -/
def parseJMembersAux : Nat → Chars → Option (List (Chars × JValue) × Chars)
  | 0, _ => none
  | fuel + 1, cs0 =>
    let cs := cs0.dropWhile jsonWsChar
    match cs with
    | [] => none
    | c :: rest =>
      if c = '"' then
        match parseJString rest with
        | none => none
        | some (k, rest1) =>
          let rest2 := rest1.dropWhile jsonWsChar
          if rest2.head? = some ':' then
            match parseJValueAux fuel (rest2.drop 1) with
            | none => none
            | some (v, rest3) =>
              let rest4 := rest3.dropWhile jsonWsChar
              if rest4.head? = some ',' then
                (parseJMembersAux fuel (rest4.drop 1)).map (fun pr => ((k, v) :: pr.1, pr.2))
              else if rest4.head? = some rbrace then some ([(k, v)], rest4.drop 1)
              else none
          else none
      else none

/-- Elements of a JSON array after its first non-whitespace character
(which is not the closing bracket). -/
def parseJElemsAux : Nat → Chars → Option (List JValue × Chars)
  | 0, _ => none
  | fuel + 1, cs0 =>
    match parseJValueAux fuel cs0 with
    | none => none
    | some (v, rest) =>
      let rest1 := rest.dropWhile jsonWsChar
      if rest1.head? = some ',' then
        (parseJElemsAux fuel (rest1.drop 1)).map (fun pr => (v :: pr.1, pr.2))
      else if rest1.head? = some ']' then some ([v], rest1.drop 1)
      else none

end

/-- Python `json.loads`: one JSON document, nothing but whitespace after
it; `none` models the raised `JSONDecodeError`. -/
def jsonLoads (cs : Chars) : Option JValue :=
  match parseJValueAux (cs.length + 1) cs with
  | some (v, rest) => if (rest.dropWhile jsonWsChar).isEmpty then some v else none
  | none => none

/-! ## The markdown-fence regex (`split.py` line 88)

`re.search(r"` ```(json)?\s*(\{.*?\})\s*``` `", json_str, re.DOTALL)`.
Backtracking collapses to a deterministic scan here: after the opening
fence, `(json)?` succeeds with `json` exactly when `json` follows (a
leftover `j` can never start `\s*\{`); `\s*` before a non-whitespace
literal must consume the maximal whitespace run; and the non-greedy
`\{.*?\}` takes the first closing brace whose suffix matches. -/

/-- The three-backtick fence delimiter. -/
def fenceMarks : Chars := [btick, btick, btick]

/-- Scan for the earliest closing brace of the non-greedy group whose
suffix is whitespace followed by a closing fence; returns the group body
(between the braces, reversed accumulator). -/
def fenceBodyAux : Nat → Chars → Chars → Option Chars
  | 0, _, _ => none
  | fuel + 1, acc, cs =>
    match cs with
    | [] => none
    | c :: rest =>
      if c = rbrace && listStartsWith (rest.dropWhile pyWsChar) fenceMarks then
        some acc.reverse
      else fenceBodyAux fuel (c :: acc) rest

/-- The braced group once the opening brace has been consumed. -/
def fenceAfterBrace (rest : Chars) : Option Chars :=
  match fenceBodyAux (rest.length + 1) [] rest with
  | some body => some (lbrace :: body ++ [rbrace])
  | none => none

/-- Match `\{.*?\}\s*` + closing fence at the point right after
`(json)?\s*`. -/
def fenceAtBody (cs3 : Chars) : Option Chars :=
  match cs3 with
  | c :: rest => if c = lbrace then fenceAfterBrace rest else none
  | [] => none

/-- Greedy `(json)?`: a leftover `j` can never begin `\s*\{`, so the
optional group matches exactly when `json` follows. -/
def fenceJsonSkip (cs1 : Chars) : Chars :=
  if listStartsWith cs1 ("json".data) then cs1.drop 4 else cs1

/-- Try the fence pattern at the start of `cs`; on success return group 2
(the braced span). -/
def fenceAt (cs : Chars) : Option Chars :=
  if listStartsWith cs fenceMarks then
    fenceAtBody ((fenceJsonSkip (cs.drop 3)).dropWhile pyWsChar)
  else none

/-- `re.search` for the fence pattern: leftmost matching position. -/
def fenceSearch : Chars → Option Chars
  | [] => none
  | c :: rest =>
    match fenceAt (c :: rest) with
    | some g => some g
    | none => fenceSearch rest

/-! ## Response parsing (`get_gemini_response`, `split.py` lines 86-103) -/

/-- The JSON-extraction part of `get_gemini_response`, applied to the
model's response text: fence regex, else the `find('{')`/`rfind('}')`
slice; an empty stripped span yields the empty dict; otherwise
`json.loads`, whose failure is caught by the surrounding `except` and
becomes `None` (modelled `none`). -/
def parse_model_response (t : Chars) : Option JValue :=
  let json_str :=
    match fenceSearch t with
    | some g => g
    | none => pySlice t (pyFind t lbrace) (pyRfind t rbrace + 1)
  let js := stripPy json_str
  if js.isEmpty then some (JValue.jobj []) else jsonLoads js

/-- Outcome of the vision-AI call: the call itself may raise (network,
quota, ...), otherwise it returns the free-form response text. -/
inductive AICall where
  | fail
  | reply (text : Chars)

/-- `get_gemini_response`: `None` when the AI call raises (every
exception is caught), otherwise the parsed response. -/
def get_gemini_response : AICall → Option JValue
  | .fail => none
  | .reply t => parse_model_response t

/-! ## Python `str()` and `float()` on extracted values -/

/-- `", "` separator for container reprs. -/
def joinComma (xs : List Chars) : Chars :=
  match xs with
  | [] => []
  | x :: rest => x ++ rest.flatMap (fun y => (", ".data) ++ y)

/-- Zero-pad a digit string on the left to `k` characters. -/
def padZeros (ds : Chars) (k : Nat) : Chars :=
  List.replicate (k - ds.length) '0' ++ ds

/-- Python `str()` of the number `m * 10 ^ e` as decoded from JSON:
`e = 0` came from an int literal and renders as an int; otherwise a float
rendered in fixed decimal notation.  (CPython may pick scientific
notation for extreme exponents and drops trailing fractional zeros;
neither case is reachable in the claims.) -/
def numStr (m ex : Int) : Chars :=
  if ex = 0 then intStr m
  else if 0 < ex then intStr (m * (10 : Int) ^ ex.toNat) ++ (".0".data)
  else
    let k := (-ex).toNat
    let na := m.natAbs
    (if m < 0 then ['-'] else []) ++
      natDigits (na / 10 ^ k) ++ '.' :: padZeros (natDigits (na % 10 ^ k)) k

/-- `repr()` of a decoded JSON value, used inside container reprs
(string escaping inside reprs is not modelled; containers are unreachable
in every theorem below).  Fuel bounds nesting as CPython's recursion
limit does. -/
def reprJAux : Nat → JValue → Chars
  | 0, _ => []
  | fuel + 1, v =>
    match v with
    | .jnull => ("None".data)
    | .jbool true => ("True".data)
    | .jbool false => ("False".data)
    | .jnum m ex => numStr m ex
    | .jstr s => squote :: s ++ [squote]
    | .jarr xs => '[' :: joinComma (xs.map (reprJAux fuel)) ++ [']']
    | .jobj fs =>
      lbrace :: joinComma (fs.map (fun kv => squote :: kv.1 ++ squote :: ':' :: ' ' :: reprJAux fuel kv.2)) ++ [rbrace]

/-- Python `str()` of a decoded JSON value (`str(payment_total)` and the
f-string interpolation of `currency`). -/
def pyStr (v : JValue) : Chars :=
  match v with
  | .jstr s => s
  | _ => reprJAux 1000 v

/-- `.replace(',', '')`: drop every comma. -/
def removeCommas (cs : Chars) : Chars := cs.filter (fun c => c ≠ ',')

/-- Python `float(s)` on a string, as the exact decimal `m * 10 ^ e`;
`none` models the raised `ValueError`.  (The `inf`/`nan` spellings and
digit-group underscores CPython also accepts are not modelled; no claim
depends on them.) -/
def pyFloat (cs0 : Chars) : Option (Int × Int) :=
  let cs := stripPy cs0
  let pr : Bool × Chars :=
    if cs.head? = some '-' then (true, cs.drop 1)
    else if cs.head? = some '+' then (false, cs.drop 1)
    else (false, cs)
  let ip := pr.2.takeWhile isDigitCh
  let cs2 := pr.2.drop ip.length
  let fpr : Chars × Chars :=
    if cs2.head? = some '.' then
      ((cs2.drop 1).takeWhile isDigitCh, (cs2.drop 1).dropWhile isDigitCh)
    else ([], cs2)
  if ip.isEmpty && fpr.1.isEmpty then none
  else
    match floatExp fpr.2 with
    | none => none
    | some (ex, rest) =>
      if rest.isEmpty then
        let mAbs : Nat := digitsToNat (ip ++ fpr.1)
        some (if pr.1 then -(mAbs : Int) else (mAbs : Int), ex - (fpr.1.length : Int))
      else none

/-! ## Page classification (`is_continuation_or_summary_page`,
`split.py` lines 122-134) and filename construction -/

/-- `sanitize_filename`: `re.sub(r'[<>:"/\\|?*]', '_', filename)`. -/
def invalidFileChar (c : Char) : Bool :=
  c = '<' || c = '>' || c = ':' || c = '"' || c = '/' || c = '\\' || c = '|' || c = '?' || c = '*'

/-- `sanitize_filename` replaces every invalid filename character with an
underscore. -/
def sanitize_filename (s : Chars) : Chars :=
  s.map (fun c => if invalidFileChar c then '_' else c)

/-- `is_continuation_or_summary_page`, exactly the source's two checks in
order. -/
def is_continuation_or_summary_page (page_text : Chars) : Bool :=
  if containsSub page_text ("Summary".data) && !containsSub page_text ("Payment Group".data) then
    true
  else if !containsSub page_text ("Fund House :".data) && containsSub page_text ("WMC Nominees Ltd".data) then
    true
  else false

/-- The spec's classification verdicts for the pre-filter. -/
inductive ClassificationVerdict where
  | Process
  | SkipSummary
  | SkipContinuation
deriving DecidableEq

/-- The pre-filter as a verdict: the source's first check (summary) and
second check (continuation), in the source's order, `Process` otherwise. -/
def classifyPage (page_text : Chars) : ClassificationVerdict :=
  if containsSub page_text ("Summary".data) && !containsSub page_text ("Payment Group".data) then
    .SkipSummary
  else if !containsSub page_text ("Fund House :".data) && containsSub page_text ("WMC Nominees Ltd".data) then
    .SkipContinuation
  else .Process

/-- A calendar date as observed by `datetime.now()` when a page is
accepted (year, month, day). -/
structure PyDate where
  y : Nat
  m : Nat
  d : Nat

/-- One `%y`/`%m`/`%d` component: two digits (strftime zero-pads; the
`% 100` is literal for `%y` and vacuous for real months and days). -/
def twoDigits (n : Nat) : Chars := zfill2 (n % 100)

/-- `datetime.now().strftime('%y%m%d')`. -/
def dateStr (dt : PyDate) : Chars := twoDigits dt.y ++ twoDigits dt.m ++ twoDigits dt.d

/-- The f-string of `split.py` line 191:
`f"S{date_str}-{str(sequence_number).zfill(2)}_{sanitized_name}_{currency}-order details.pdf"`. -/
def mkFilename (date : Chars) (seq : Nat) (name cur : Chars) : Chars :=
  'S' :: date ++ '-' :: zfill2 seq ++ '_' :: name ++ '_' :: cur ++ ("-order details.pdf".data)

/-- `os.path.join(OUTPUT_FOLDER, filename)`. -/
def outPath (fn : Chars) : Chars := ("output/".data) ++ fn

/-- `os.path.join(TEMP_DIR, uploaded_file.name)` (for a relative upload
name). -/
def tempPath (uploadName : Chars) : Chars := ("temp/".data) ++ uploadName

/-! ## The run loop (`process_pdf`, `split.py` lines 136-229)

External effects are inputs: each page carries the text
`reader.pages[i].extract_text()` returns, whether
`convert_pdf_to_image` succeeds (it returns `None` on any failure), the
outcome of the Gemini call, and the date `datetime.now()` yields while
the page is handled.  Progress-bar and status calls have no effect on
control flow or results and are not modelled. -/

/-- One page of the source document together with the behaviour of the
external collaborators on it. -/
structure Page where
  text : Chars
  renderOk : Bool
  ai : AICall
  now : PyDate

/-- One generated output entry (the dict appended to `generated_files`).
`content` is the page index standing for the single-page PDF bytes that
are written and read back; `seqNum` records the sequence number the page
consumed (the source keeps it only inside `filename`). -/
structure GeneratedFile where
  filename : Chars
  content : Nat
  currency : JValue
  payment_total : Int × Int
  seqNum : Nat

/-- Mutable state of one run: the sequence counter, the accumulated
result list, the set of paths existing on disk because of this run, and
(ghost instrumentation) the indices of pages for which the AI was
called. -/
structure RunSt where
  seq : Nat
  files : List GeneratedFile
  fs : List Chars
  aiCalls : List Nat

/-- Record a path as existing (writing an existing path overwrites). -/
def addPath (fs : List Chars) (p : Chars) : List Chars :=
  if p ∈ fs then fs else fs ++ [p]

/-- Truthiness of `d.get(k)`: `None` (absent) is falsy. -/
def optTruthy : Option JValue → Bool
  | none => false
  | some v => truthy v

/-- `split.py` lines 171-214: everything after `ai_results =
get_gemini_response(page_image)` for one page.  The `Bool` is `true` when
an exception escapes to the run-level handler: `re.sub` raises on a
non-string name (before the extract is written), `float(...)` raises on
an unparseable total (after the extract is written). -/
def handle_ai_results (i : Nat) (p : Page) (st : RunSt) (ai_results : Option JValue) :
    Bool × RunSt :=
  match ai_results with
  | none => (false, st)
  | some v =>
    if truthy v then
      if isDict v then
        let chosen_name := jget v ("simplified_name".data)
        let currency := jget v ("currency".data)
        let payment_total := jget v ("payment_total".data)
        if optTruthy chosen_name && optTruthy currency && optTruthy payment_total then
          match chosen_name with
          | some (.jstr nm) =>
            let cur := (currency.getD .jnull)
            let pt := (payment_total.getD .jnull)
            let filename := mkFilename (dateStr p.now) st.seq (sanitize_filename nm) (pyStr cur)
            let st1 : RunSt := { st with fs := addPath st.fs (outPath filename) }
            match pyFloat (removeCommas (pyStr pt)) with
            | some q =>
              (false, { st1 with
                          files := st1.files ++ [⟨filename, i, cur, q, st.seq⟩],
                          seq := st.seq + 1 })
            | none => (true, st1)
          | _ => (true, st)
        else (false, st)
      else (false, st)
    else (false, st)

/-- One iteration of the page loop: the early skip on
`is_continuation_or_summary_page`, the skip when rendering fails, then
the AI call and `handle_ai_results`. -/
def pageStep (i : Nat) (p : Page) (st : RunSt) : Bool × RunSt :=
  if is_continuation_or_summary_page p.text then (false, st)
  else if !p.renderOk then (false, st)
  else handle_ai_results i p { st with aiCalls := st.aiCalls ++ [i] } (get_gemini_response p.ai)

/-- The page loop from page index `i`; stops at the first escaping
exception (`true`), carrying the state reached at that point. -/
def runPages : Nat → List Page → RunSt → Bool × RunSt
  | _, [], st => (false, st)
  | i, p :: ps, st =>
    match pageStep i p st with
    | (true, st1) => (true, st1)
    | (false, st1) => runPages (i + 1) ps st1

/-- Observable outcome of `process_pdf`: the returned pair
(`files`, `nextSeq`), the paths of this run still on disk after the
`finally:` cleanup, whether the run-level `except` handler fired, and the
ghost list of AI-called page indices. -/
structure RunOut where
  files : List GeneratedFile
  nextSeq : Nat
  fs : List Chars
  aborted : Bool
  aiCalls : List Nat

/-- `process_pdf`: write the uploaded copy under `temp/`, open the
document (`doc = none` models `PdfReader` raising: run-fatal), loop over
the pages, return `([], start_sequence)` if an exception escaped, and in
all cases remove the uploaded copy in `finally:`. -/
def process_pdf (doc : Option (List Page)) (start_sequence : Nat) (uploadName : Chars) :
    RunOut :=
  let tp := tempPath uploadName
  match doc with
  | none => ⟨[], start_sequence, [tp].filter (fun q => q ≠ tp), true, []⟩
  | some pages =>
    let res := runPages 0 pages ⟨start_sequence, [], [tp], []⟩
    let fs2 := res.2.fs.filter (fun q => q ≠ tp)
    if res.1 then ⟨[], start_sequence, fs2, true, res.2.aiCalls⟩
    else ⟨res.2.files, res.2.seq, fs2, false, res.2.aiCalls⟩

/-! ## Acceptance predicates and concrete sample runs -/

/-- What `handle_ai_results` requires of `ai_results` to append a file,
and the exact file it appends when the current sequence number is `s`. -/
def acceptsFromAI (i : Nat) (p : Page) (s : Nat) (r : Option JValue) (f : GeneratedFile) :
    Prop :=
  ∃ v nm cur pt q,
    r = some v ∧ truthy v = true ∧ isDict v = true ∧
    jget v ("simplified_name".data) = some (.jstr nm) ∧
    jget v ("currency".data) = some cur ∧ truthy cur = true ∧
    jget v ("payment_total".data) = some pt ∧ truthy pt = true ∧
    pyFloat (removeCommas (pyStr pt)) = some q ∧
    f = ⟨mkFilename (dateStr p.now) s (sanitize_filename nm) (pyStr cur), i, cur, q, s⟩

/-- A page is accepted with sequence number `s`, producing exactly `f`. -/
def acceptsAt (i : Nat) (p : Page) (s : Nat) (f : GeneratedFile) : Prop :=
  is_continuation_or_summary_page p.text = false ∧ p.renderOk = true ∧
    acceptsFromAI i p s (get_gemini_response p.ai) f

/-- Modelled from the spec: "Currency is passed through uppercased/
trimmed".  This is the normalization the spec describes; it exists only to
be compared against what the code stores. -/
def upperTrimSpec (s : Chars) : Chars := (stripPy s).map Char.toUpper

/-- A primary-page text: not a summary, has the header marker. -/
def primaryText : Chars := ("Fund House : X Payment Group 1 Total".data)

/-- A text carrying both skip signals: a "Summary" marker without
"Payment Group", no "Fund House :" header, and the recurring footer. -/
def summaryFooterText : Chars := ("Settlement Summary WMC Nominees Ltd".data)

/-- A well-formed AI reply. -/
def replyAlpha : Chars :=
  ("\x7b\"simplified_name\": \"Alpha\", \"currency\": \"USD\", \"payment_total\": \"10\"\x7d".data)

/-- An AI reply whose `payment_total` is present but not parseable as a
decimal. -/
def replyBadTotal : Chars :=
  ("\x7b\"simplified_name\": \"Beta\", \"currency\": \"USD\", \"payment_total\": \"N/A\"\x7d".data)

/-- An AI reply whose currency is lowercase with surrounding blanks. -/
def replyLowerCur : Chars :=
  ("\x7b\"simplified_name\": \"Gamma\", \"currency\": \" usd \", \"payment_total\": \"7\"\x7d".data)

/-- An AI reply whose `payment_total` is the JSON number `0`. -/
def replyZeroTotal : Chars :=
  ("\x7b\"simplified_name\": \"Delta\", \"currency\": \"USD\", \"payment_total\": 0\x7d".data)

/-- A valid settlement page, processed on 2025-01-01. -/
def pageAlpha : Page := ⟨primaryText, true, .reply replyAlpha, ⟨25, 1, 1⟩⟩

/-- The same settlement page but processed on 2025-01-02. -/
def pageAlphaDay2 : Page := ⟨primaryText, true, .reply replyAlpha, ⟨25, 1, 2⟩⟩

/-- A page whose extracted total is unparseable. -/
def pageBadTotal : Page := ⟨primaryText, true, .reply replyBadTotal, ⟨25, 1, 1⟩⟩

/-- A page whose extracted currency is `" usd "`. -/
def pageLowerCur : Page := ⟨primaryText, true, .reply replyLowerCur, ⟨25, 1, 1⟩⟩

/-- A page whose extracted total is `0`. -/
def pageZeroTotal : Page := ⟨primaryText, true, .reply replyZeroTotal, ⟨25, 1, 1⟩⟩

/-- A summary page (the pre-filter skips it before any AI call). -/
def pageSummary : Page := ⟨summaryFooterText, true, .reply replyAlpha, ⟨25, 1, 1⟩⟩

/-- An upload name for the sample runs. -/
def uploadNm : Chars := ("report.pdf".data)

/-- A run state for the witness instantiations. -/
def stSample : RunSt := ⟨3, [], [], []⟩

/-- The decoded mapping of `replyZeroTotal`. -/
def vZero : JValue := JValue.jobj
  [(("simplified_name".data), JValue.jstr ("Delta".data)),
   (("currency".data), JValue.jstr ("USD".data)),
   (("payment_total".data), JValue.jnum 0 0)]

/-- The file generated for `pageAlpha` at sequence number 1. -/
def fileAlpha : GeneratedFile :=
  ⟨("S250101-01_Alpha_USD-order details.pdf".data), 0, JValue.jstr ("USD".data), (10, 0), 1⟩

/-- The file generated for `pageLowerCur` at sequence number 1 (note the
raw `" usd "` currency in both the record and the filename). -/
def fileGamma : GeneratedFile :=
  ⟨("S250101-01_Gamma_ usd -order details.pdf".data), 0, JValue.jstr (" usd ".data), (7, 0), 1⟩

/-! ## Decimal rendering: round-trip and shape lemmas -/

theorem digitValCh_digitChar {d : Nat} (h : d < 10) : digitValCh (digitChar d) = d := by
  interval_cases d <;> rfl

theorem isDigitCh_digitChar {d : Nat} (h : d < 10) : isDigitCh (digitChar d) = true := by
  interval_cases d <;> rfl

theorem digitsToNat_append_single (ds : Chars) (c : Char) :
    digitsToNat (ds ++ [c]) = 10 * digitsToNat ds + digitValCh c := by
  simp [digitsToNat, List.foldl_append]
  ring

theorem natDigitsAux_spec : ∀ fuel n, n < fuel →
    digitsToNat (natDigitsAux fuel n) = n ∧ natDigitsAux fuel n ≠ [] ∧
      ∀ c ∈ natDigitsAux fuel n, isDigitCh c = true := by
  intro fuel
  induction fuel with
  | zero => intro n h; omega
  | succ f ih =>
    intro n h
    by_cases h10 : n < 10
    · refine ⟨?_, ?_, ?_⟩
      · simp [natDigitsAux, h10, digitsToNat, digitValCh_digitChar h10]
      · simp [natDigitsAux, h10]
      · simp [natDigitsAux, h10, isDigitCh_digitChar h10]
    · have hdiv : n / 10 < f := by
        have := Nat.div_lt_self (by omega : 0 < n) (by omega : 1 < 10)
        omega
      obtain ⟨ih1, ih2, ih3⟩ := ih (n / 10) hdiv
      have hmod : n % 10 < 10 := Nat.mod_lt _ (by omega)
      refine ⟨?_, ?_, ?_⟩
      · simp only [natDigitsAux, if_neg h10]
        rw [digitsToNat_append_single, ih1, digitValCh_digitChar hmod]
        omega
      · simp [natDigitsAux, h10]
      · simp only [natDigitsAux, if_neg h10]
        intro c hc
        rcases List.mem_append.mp hc with hc1 | hc2
        · exact ih3 c hc1
        · rcases List.mem_singleton.mp hc2 with rfl
          exact isDigitCh_digitChar hmod

theorem digitsToNat_natDigits (n : Nat) : digitsToNat (natDigits n) = n :=
  (natDigitsAux_spec (n + 1) n (Nat.lt_succ_self n)).1

theorem natDigits_all_digits (n : Nat) : ∀ c ∈ natDigits n, isDigitCh c = true :=
  (natDigitsAux_spec (n + 1) n (Nat.lt_succ_self n)).2.2

theorem digitsToNat_cons_zero (ds : Chars) : digitsToNat ('0' :: ds) = digitsToNat ds := by
  simp [digitsToNat, digitValCh]

theorem digitsToNat_zfill2 (n : Nat) : digitsToNat (zfill2 n) = n := by
  unfold zfill2
  by_cases h : (natDigits n).length < 2
  · simp only [h, if_true]
    rw [digitsToNat_cons_zero, digitsToNat_natDigits]
  · simp only [h, if_false]
    exact digitsToNat_natDigits n

theorem zfill2_inj {a b : Nat} (h : zfill2 a = zfill2 b) : a = b := by
  have := digitsToNat_zfill2 a
  rw [h, digitsToNat_zfill2] at this
  omega

theorem zfill2_all_digits (n : Nat) : ∀ c ∈ zfill2 n, isDigitCh c = true := by
  unfold zfill2
  by_cases h : (natDigits n).length < 2
  · simp only [h, if_true]
    intro c hc
    rcases List.mem_cons.mp hc with rfl | hc2
    · rfl
    · exact natDigits_all_digits n c hc2
  · simp only [h, if_false]
    exact natDigits_all_digits n

theorem natDigits_len_pos (n : Nat) : 1 ≤ (natDigits n).length := by
  have := (natDigitsAux_spec (n + 1) n (Nat.lt_succ_self n)).2.1
  cases hd : natDigits n with
  | nil => exact absurd hd this
  | cons x xs => simp

theorem zfill2_len (n : Nat) : 2 ≤ (zfill2 n).length := by
  unfold zfill2
  have h1 := natDigits_len_pos n
  by_cases h : (natDigits n).length < 2
  · simp only [h, if_true, List.length_cons]
    omega
  · simp only [h, if_false]
    omega

theorem takeWhile_all_append (p : Char → Bool) {z : Chars} (x : Char) (r : Chars)
    (hz : ∀ c ∈ z, p c = true) (hx : p x = false) :
    (z ++ x :: r).takeWhile p = z := by
  induction z with
  | nil => simp [List.takeWhile, hx]
  | cons c cs ih =>
    simp only [List.cons_append, List.takeWhile]
    rw [hz c (List.mem_cons_self c cs)]
    simp only [List.cons.injEq, true_and]
    exact ih fun y hy => hz y (List.mem_cons_of_mem c hy)

theorem mkFilename_inj_seq {d1 d2 n1 n2 c1 c2 : Chars} {s1 s2 : Nat}
    (hd : d1.length = d2.length) (hs : s1 ≠ s2) :
    mkFilename d1 s1 n1 c1 ≠ mkFilename d2 s2 n2 c2 := by
  intro h
  unfold mkFilename at h
  have h1 : d1 ++ '-' :: (zfill2 s1 ++ '_' :: n1 ++ '_' :: c1 ++ ("-order details.pdf".data)) =
      d2 ++ '-' :: (zfill2 s2 ++ '_' :: n2 ++ '_' :: c2 ++ ("-order details.pdf".data)) := by
    have := List.cons.injEq 'S' (d1 ++ '-' :: (zfill2 s1 ++ '_' :: n1 ++ '_' :: c1 ++ ("-order details.pdf".data)))
      'S' (d2 ++ '-' :: (zfill2 s2 ++ '_' :: n2 ++ '_' :: c2 ++ ("-order details.pdf".data)))
    simpa using h
  obtain ⟨-, h2⟩ := List.append_inj h1 hd
  have h3 : zfill2 s1 ++ '_' :: (n1 ++ '_' :: c1 ++ ("-order details.pdf".data)) =
      zfill2 s2 ++ '_' :: (n2 ++ '_' :: c2 ++ ("-order details.pdf".data)) := by
    simpa using h2
  have h4 : zfill2 s1 = zfill2 s2 := by
    have t1 := takeWhile_all_append isDigitCh '_'
      (n1 ++ '_' :: c1 ++ ("-order details.pdf".data)) (zfill2_all_digits s1) (by decide)
    have t2 := takeWhile_all_append isDigitCh '_'
      (n2 ++ '_' :: c2 ++ ("-order details.pdf".data)) (zfill2_all_digits s2) (by decide)
    rw [← t1, ← t2, h3]
  exact hs (zfill2_inj h4)

theorem natDigitsAux_small (f : Nat) {k : Nat} (h : k < 10) :
    natDigitsAux (f + 1) k = [digitChar k] := by
  simp [natDigitsAux, h]

theorem natDigits_len_le2 {k : Nat} (h : k < 100) : (natDigits k).length ≤ 2 := by
  unfold natDigits
  by_cases h10 : k < 10
  · simp [natDigitsAux_small k h10]
  · have step : natDigitsAux (k + 1) k = natDigitsAux k (k / 10) ++ [digitChar (k % 10)] := by
      simp [natDigitsAux, h10]
    rw [step]
    have hq : k / 10 < 10 := by omega
    obtain ⟨f, hf⟩ : ∃ f, k = f + 1 := ⟨k - 1, by omega⟩
    subst hf
    rw [natDigitsAux_small f hq]
    simp

theorem twoDigits_len (n : Nat) : (twoDigits n).length = 2 := by
  unfold twoDigits zfill2
  have hlt : n % 100 < 100 := Nat.mod_lt _ (by omega)
  have h1 := natDigits_len_pos (n % 100)
  have h2 := natDigits_len_le2 hlt
  by_cases h : (natDigits (n % 100)).length < 2
  · simp only [h, if_true, List.length_cons]
    omega
  · simp only [h, if_false]
    omega

theorem dateStr_len (dt : PyDate) : (dateStr dt).length = 6 := by
  unfold dateStr
  simp [twoDigits_len]

/-! ## Fence-regex lemmas -/

theorem listStartsWith_cons {cs : Chars} {p : Char} {ps : Chars}
    (h : listStartsWith cs (p :: ps) = true) : ∃ rest, cs = p :: rest := by
  cases cs with
  | nil => simp [listStartsWith] at h
  | cons c rest =>
    refine ⟨rest, ?_⟩
    simp only [listStartsWith, Bool.and_eq_true, decide_eq_true_eq] at h
    rw [h.1]

theorem fenceAtBody_lbrace {cs3 g : Chars} (h : fenceAtBody cs3 = some g) : lbrace ∈ cs3 := by
  cases cs3 with
  | nil => simp [fenceAtBody] at h
  | cons c rest =>
    by_cases hc : c = lbrace
    · rw [hc]; exact List.mem_cons_self _ _
    · simp [fenceAtBody, hc] at h

theorem fenceJsonSkip_subset (cs1 : Chars) : fenceJsonSkip cs1 ⊆ cs1 := by
  unfold fenceJsonSkip
  by_cases h : listStartsWith cs1 ("json".data)
  · simp only [h, if_true]
    exact (List.drop_sublist 4 cs1).subset
  · simp only [h, if_false]
    exact fun a ha => ha

theorem fenceAt_btick {cs g : Chars} (h : fenceAt cs = some g) : ∃ rest, cs = btick :: rest := by
  unfold fenceAt at h
  by_cases h1 : listStartsWith cs fenceMarks
  · exact listStartsWith_cons h1
  · simp [h1] at h

theorem fenceAt_lbrace {cs g : Chars} (h : fenceAt cs = some g) : lbrace ∈ cs := by
  unfold fenceAt at h
  by_cases h1 : listStartsWith cs fenceMarks
  · rw [if_pos h1] at h
    have h2 := fenceAtBody_lbrace h
    have h3 : lbrace ∈ fenceJsonSkip (cs.drop 3) :=
      ((List.dropWhile_sublist pyWsChar).subset : _ ⊆ _) h2
    have h4 : lbrace ∈ cs.drop 3 := fenceJsonSkip_subset _ h3
    exact (List.drop_sublist 3 cs).subset h4
  · simp [h1] at h

theorem fenceSearch_none_of_no_btick {cs : Chars} (h : ∀ c ∈ cs, c ≠ btick) :
    fenceSearch cs = none := by
  induction cs with
  | nil => rfl
  | cons c rest ih =>
    have hc : c ≠ btick := h c (List.mem_cons_self c rest)
    have hat : fenceAt (c :: rest) = none := by
      cases hfa : fenceAt (c :: rest) with
      | none => rfl
      | some g =>
        obtain ⟨r2, hr2⟩ := fenceAt_btick hfa
        injection hr2 with hh _
        exact absurd hh hc
    simp only [fenceSearch, hat]
    exact ih fun x hx => h x (List.mem_cons_of_mem c hx)

theorem fenceSearch_none_of_no_lbrace {cs : Chars} (h : lbrace ∉ cs) :
    fenceSearch cs = none := by
  induction cs with
  | nil => rfl
  | cons c rest ih =>
    have hat : fenceAt (c :: rest) = none := by
      cases hfa : fenceAt (c :: rest) with
      | none => rfl
      | some g => exact absurd (fenceAt_lbrace hfa) h
    simp only [fenceSearch, hat]
    exact ih fun hx => h (List.mem_cons_of_mem c hx)

/-! ## `find`/`rfind`/slice lemmas -/

theorem firstIdxAux_none {c : Char} {cs : Chars} (h : c ∉ cs) : firstIdxAux c cs = none := by
  induction cs with
  | nil => rfl
  | cons a as ih =>
    have ha : a ≠ c := fun hac => h (hac ▸ List.mem_cons_self a as)
    simp only [firstIdxAux, if_neg ha]
    rw [ih fun hx => h (List.mem_cons_of_mem a hx)]
    rfl

theorem firstIdxAux_append_left {c : Char} {pre l : Chars} (h : c ∉ pre) :
    firstIdxAux c (pre ++ l) = (firstIdxAux c l).map (· + pre.length) := by
  induction pre with
  | nil => simp
  | cons a as ih =>
    have ha : a ≠ c := fun hac => h (hac ▸ List.mem_cons_self a as)
    simp only [List.cons_append, firstIdxAux, if_neg ha, List.append_eq]
    rw [ih fun hx => h (List.mem_cons_of_mem a hx)]
    cases firstIdxAux c l with
    | none => rfl
    | some n =>
      simp only [Option.map_map, Option.map]
      simp [List.length_cons]
      omega

theorem firstIdxAux_cons_self (c : Char) (cs : Chars) : firstIdxAux c (c :: cs) = some 0 := by
  simp [firstIdxAux]

theorem pyFind_append {c : Char} {pre tail : Chars} (h : c ∉ pre) :
    pyFind (pre ++ c :: tail) c = (pre.length : Int) := by
  unfold pyFind
  rw [firstIdxAux_append_left h, firstIdxAux_cons_self]
  simp

theorem pyFind_not_mem {c : Char} {cs : Chars} (h : c ∉ cs) : pyFind cs c = -1 := by
  unfold pyFind
  rw [firstIdxAux_none h]

theorem pyRfind_append {c : Char} {A B : Chars} (h : c ∉ B) :
    pyRfind (A ++ c :: B) c = (A.length : Int) := by
  unfold pyRfind
  have hrev : (A ++ c :: B).reverse = B.reverse ++ c :: A.reverse := by
    simp [List.reverse_append]
  rw [hrev, firstIdxAux_append_left (by simpa using h), firstIdxAux_cons_self]
  have hlen : (A ++ c :: B).length = A.length + B.length + 1 := by
    simp [List.length_append]
    omega
  simp only [Option.map, hlen, List.length_reverse]
  push_cast
  omega

theorem pyRfind_not_mem {c : Char} {cs : Chars} (h : c ∉ cs) : pyRfind cs c = -1 := by
  unfold pyRfind
  rw [firstIdxAux_none (by simpa using h)]

theorem pySlice_exact (pre obj post : Chars) :
    pySlice (pre ++ obj ++ post) (pre.length : Int) ((pre.length : Int) + (obj.length : Int)) = obj := by
  unfold pySlice sliceIdx
  have hn : (pre ++ obj ++ post).length = pre.length + obj.length + post.length := by
    simp [List.length_append]
    omega
  have h1 : ¬((pre.length : Int) < 0) := by omega
  have h2 : ¬((pre.length : Int) + (obj.length : Int) < 0) := by omega
  rw [if_neg h1, if_neg h2, hn]
  have e1 : ((pre.length : Int) + (obj.length : Int)).toNat = pre.length + obj.length := by
    omega
  have e2 : ((pre.length : Int)).toNat = pre.length := by omega
  rw [e1, e2]
  have hmin1 : min (pre.length + obj.length) (pre.length + obj.length + post.length) =
      pre.length + obj.length := by omega
  have hmin2 : min pre.length (pre.length + obj.length + post.length) = pre.length := by omega
  rw [hmin1, hmin2]
  have htake : (pre ++ obj ++ post).take (pre.length + obj.length) = pre ++ obj := by
    have : pre.length + obj.length = (pre ++ obj).length := by simp
    rw [this]
    exact List.take_left (pre ++ obj) post
  rw [htake]
  exact List.drop_left pre obj

theorem stripPy_empty : stripPy [] = [] := rfl

theorem dropWhile_cons_false (p : Char → Bool) (a : Char) (l : Chars) (ha : p a = false) :
    List.dropWhile p (a :: l) = a :: l := by
  simp [List.dropWhile, ha]

theorem stripPy_brace (mid : Chars) :
    stripPy (lbrace :: mid ++ [rbrace]) = lbrace :: mid ++ [rbrace] := by
  have hsh : lbrace :: mid ++ [rbrace] = lbrace :: (mid ++ [rbrace]) := by simp
  rw [hsh]
  unfold stripPy
  rw [dropWhile_cons_false pyWsChar lbrace (mid ++ [rbrace]) (by decide)]
  have hrev : (lbrace :: (mid ++ [rbrace])).reverse = rbrace :: (mid.reverse ++ [lbrace]) := by
    simp
  rw [hrev, dropWhile_cons_false pyWsChar rbrace (mid.reverse ++ [lbrace]) (by decide),
    ← hrev, List.reverse_reverse]

/-! ## The C4 response-extraction lemmas -/

theorem parse_model_response_embedded {pre mid post : Chars} {v : JValue}
    (hpre : ∀ c ∈ pre, c ≠ lbrace ∧ c ≠ rbrace ∧ c ≠ btick)
    (hpost : ∀ c ∈ post, c ≠ lbrace ∧ c ≠ rbrace ∧ c ≠ btick)
    (hmid : ∀ c ∈ mid, c ≠ btick)
    (hload : jsonLoads (lbrace :: mid ++ [rbrace]) = some v) :
    parse_model_response (pre ++ (lbrace :: mid ++ [rbrace]) ++ post) = some v := by
  have hfence : fenceSearch (pre ++ (lbrace :: mid ++ [rbrace]) ++ post) = none := by
    apply fenceSearch_none_of_no_btick
    intro c hc
    rcases List.mem_append.mp hc with hc1 | hcp
    · rcases List.mem_append.mp hc1 with hc2 | hc3
      · exact (hpre c hc2).2.2
      · rcases List.mem_cons.mp hc3 with rfl | hc4
        · decide
        · rcases List.mem_append.mp hc4 with hc5 | hc6
          · exact hmid c hc5
          · rcases List.mem_singleton.mp hc6 with rfl
            decide
    · exact (hpost c hcp).2.2
  have hfind : pyFind (pre ++ (lbrace :: mid ++ [rbrace]) ++ post) lbrace = (pre.length : Int) := by
    have hassoc : pre ++ (lbrace :: mid ++ [rbrace]) ++ post =
        pre ++ lbrace :: (mid ++ [rbrace] ++ post) := by simp
    rw [hassoc]
    exact pyFind_append fun hx => ((hpre lbrace hx).1 rfl)
  have hrfind : pyRfind (pre ++ (lbrace :: mid ++ [rbrace]) ++ post) rbrace =
      ((pre.length : Int) + (mid.length : Int) + 1) := by
    have hassoc : pre ++ (lbrace :: mid ++ [rbrace]) ++ post =
        (pre ++ lbrace :: mid) ++ rbrace :: post := by simp
    rw [hassoc, pyRfind_append fun hx => ((hpost rbrace hx).2.1 rfl)]
    simp [List.length_append]
    omega
  have hslice : pySlice (pre ++ (lbrace :: mid ++ [rbrace]) ++ post)
      (pre.length : Int) ((pre.length : Int) + (mid.length : Int) + 1 + 1) =
      lbrace :: mid ++ [rbrace] := by
    have hlen : ((pre.length : Int) + (mid.length : Int) + 1 + 1) =
        (pre.length : Int) + ((lbrace :: mid ++ [rbrace]).length : Int) := by
      simp [List.length_append]
      omega
    rw [hlen]
    exact pySlice_exact pre (lbrace :: mid ++ [rbrace]) post
  unfold parse_model_response
  rw [hfence]
  simp only [hfind, hrfind, hslice, stripPy_brace]
  rw [if_neg (by simp)]
  exact hload

theorem parse_model_response_no_braces {t : Chars} (h1 : lbrace ∉ t) (h2 : rbrace ∉ t) :
    parse_model_response t = some (JValue.jobj []) := by
  have hfence : fenceSearch t = none := fenceSearch_none_of_no_lbrace h1
  have hslice : pySlice t (pyFind t lbrace) (pyRfind t rbrace + 1) = [] := by
    rw [pyFind_not_mem h1, pyRfind_not_mem h2]
    unfold pySlice sliceIdx
    norm_num
  unfold parse_model_response
  rw [hfence]
  simp only [hslice, stripPy_empty]
  rfl

/-! ## Behaviour of the per-page step -/

theorem optTruthy_eq_true {o : Option JValue} (h : optTruthy o = true) :
    ∃ x, o = some x ∧ truthy x = true := by
  cases o with
  | none => simp [optTruthy] at h
  | some x => exact ⟨x, rfl, h⟩

theorem addPath_mem {fs : List Chars} {p q : Chars} (h : q ∈ addPath fs p) :
    q ∈ fs ∨ q = p := by
  unfold addPath at h
  by_cases hp : p ∈ fs
  · rw [if_pos hp] at h
    exact Or.inl h
  · rw [if_neg hp] at h
    rcases List.mem_append.mp h with h1 | h2
    · exact Or.inl h1
    · exact Or.inr (List.mem_singleton.mp h2)

theorem handle_ai_results_spec (i : Nat) (p : Page) (st : RunSt) (r : Option JValue) :
    handle_ai_results i p st r = (false, st) ∨
    (∃ f, acceptsFromAI i p st.seq r f ∧
      handle_ai_results i p st r =
        (false, { st with files := st.files ++ [f], seq := st.seq + 1,
                          fs := addPath st.fs (outPath f.filename) })) ∨
    ((handle_ai_results i p st r).1 = true ∧
      (handle_ai_results i p st r).2.files = st.files ∧
      (handle_ai_results i p st r).2.seq = st.seq ∧
      (handle_ai_results i p st r).2.aiCalls = st.aiCalls ∧
      ∀ q ∈ (handle_ai_results i p st r).2.fs, q ∈ st.fs ∨ ∃ fn, q = outPath fn) := by
  cases r with
  | none => exact Or.inl rfl
  | some v =>
    cases htv : truthy v with
    | false => left; simp [handle_ai_results, htv]
    | true =>
      cases hdv : isDict v with
      | false => left; simp [handle_ai_results, htv, hdv]
      | true =>
        cases hall : (optTruthy (jget v ("simplified_name".data)) &&
            optTruthy (jget v ("currency".data)) &&
            optTruthy (jget v ("payment_total".data))) with
        | false => left; simp [handle_ai_results, htv, hdv, hall]
        | true =>
          have h3 := hall
          rw [Bool.and_eq_true, Bool.and_eq_true] at h3
          obtain ⟨⟨ha, hb⟩, hc⟩ := h3
          obtain ⟨cn, hcn, hcnt⟩ := optTruthy_eq_true ha
          obtain ⟨cur, hcur, hcurt⟩ := optTruthy_eq_true hb
          obtain ⟨pt, hpt, hptt⟩ := optTruthy_eq_true hc
          cases cn with
          | jstr nm =>
            cases hq : pyFloat (removeCommas (pyStr pt)) with
            | some q =>
              right; left
              refine ⟨⟨mkFilename (dateStr p.now) st.seq (sanitize_filename nm) (pyStr cur),
                i, cur, q, st.seq⟩, ?_, ?_⟩
              · exact ⟨v, nm, cur, pt, q, rfl, htv, hdv, hcn, hcur, hcurt, hpt, hptt, hq, rfl⟩
              · simp [handle_ai_results, htv, hdv, hcn, hcur, hpt, hq, optTruthy,
                  hcnt, hcurt, hptt]
            | none =>
              right; right
              have hh : handle_ai_results i p st (some v) =
                  (true, { st with fs := addPath st.fs (outPath
                    (mkFilename (dateStr p.now) st.seq (sanitize_filename nm) (pyStr cur))) }) := by
                simp [handle_ai_results, htv, hdv, hcn, hcur, hpt, hq, optTruthy,
                  hcnt, hcurt, hptt]
              rw [hh]
              refine ⟨rfl, rfl, rfl, rfl, ?_⟩
              intro q hq2
              rcases addPath_mem hq2 with h1 | h2
              · exact Or.inl h1
              · exact Or.inr ⟨_, h2⟩
          | jnull =>
            right; right
            have hh : handle_ai_results i p st (some v) = (true, st) := by
              simp [handle_ai_results, htv, hdv, hcn, hcur, hpt, optTruthy, hcnt, hcurt, hptt]
            rw [hh]
            exact ⟨rfl, rfl, rfl, rfl, fun q hq2 => Or.inl hq2⟩
          | jbool b =>
            right; right
            have hh : handle_ai_results i p st (some v) = (true, st) := by
              simp [handle_ai_results, htv, hdv, hcn, hcur, hpt, optTruthy, hcnt, hcurt, hptt]
            rw [hh]
            exact ⟨rfl, rfl, rfl, rfl, fun q hq2 => Or.inl hq2⟩
          | jnum m e =>
            right; right
            have hh : handle_ai_results i p st (some v) = (true, st) := by
              simp [handle_ai_results, htv, hdv, hcn, hcur, hpt, optTruthy, hcnt, hcurt, hptt]
            rw [hh]
            exact ⟨rfl, rfl, rfl, rfl, fun q hq2 => Or.inl hq2⟩
          | jarr xs =>
            right; right
            have hh : handle_ai_results i p st (some v) = (true, st) := by
              simp [handle_ai_results, htv, hdv, hcn, hcur, hpt, optTruthy, hcnt, hcurt, hptt]
            rw [hh]
            exact ⟨rfl, rfl, rfl, rfl, fun q hq2 => Or.inl hq2⟩
          | jobj fs2 =>
            right; right
            have hh : handle_ai_results i p st (some v) = (true, st) := by
              simp [handle_ai_results, htv, hdv, hcn, hcur, hpt, optTruthy, hcnt, hcurt, hptt]
            rw [hh]
            exact ⟨rfl, rfl, rfl, rfl, fun q hq2 => Or.inl hq2⟩

theorem pageStep_spec (i : Nat) (p : Page) (st : RunSt) :
    pageStep i p st = (false, st) ∨
    (is_continuation_or_summary_page p.text = false ∧ p.renderOk = true ∧
      (pageStep i p st = (false, { st with aiCalls := st.aiCalls ++ [i] }) ∨
       (∃ f, acceptsAt i p st.seq f ∧
         pageStep i p st = (false, { st with files := st.files ++ [f], seq := st.seq + 1,
                                             fs := addPath st.fs (outPath f.filename),
                                             aiCalls := st.aiCalls ++ [i] })) ∨
       ((pageStep i p st).1 = true ∧ (pageStep i p st).2.files = st.files ∧
        (pageStep i p st).2.seq = st.seq ∧
        (pageStep i p st).2.aiCalls = st.aiCalls ++ [i] ∧
        ∀ q ∈ (pageStep i p st).2.fs, q ∈ st.fs ∨ ∃ fn, q = outPath fn))) := by
  cases hpre : is_continuation_or_summary_page p.text with
  | true => left; simp [pageStep, hpre]
  | false =>
    cases hrend : p.renderOk with
    | false => left; simp [pageStep, hpre, hrend]
    | true =>
      right
      refine ⟨rfl, rfl, ?_⟩
      have hps : pageStep i p st =
          handle_ai_results i p { st with aiCalls := st.aiCalls ++ [i] }
            (get_gemini_response p.ai) := by
        simp [pageStep, hpre, hrend]
      rcases handle_ai_results_spec i p { st with aiCalls := st.aiCalls ++ [i] }
          (get_gemini_response p.ai) with hsk | ⟨f, hacc, heq⟩ | habort
      · left
        rw [hps, hsk]
      · right; left
        exact ⟨f, ⟨hpre, hrend, hacc⟩, by rw [hps, heq]⟩
      · right; right
        rw [hps]
        exact habort

theorem runPages_spec (ps : List Page) : ∀ (i : Nat) (st : RunSt),
    ∃ new : List GeneratedFile,
      (runPages i ps st).2.files = st.files ++ new ∧
      (runPages i ps st).2.seq = st.seq + new.length ∧
      (∀ j (hj : j < new.length), ∃ k, ∃ hk : k < ps.length,
        acceptsAt (i + k) (ps.get ⟨k, hk⟩) (st.seq + j) (new.get ⟨j, hj⟩)) ∧
      (∀ a ∈ (runPages i ps st).2.aiCalls, a ∈ st.aiCalls ∨ ∃ k, ∃ hk : k < ps.length,
        a = i + k ∧ is_continuation_or_summary_page ((ps.get ⟨k, hk⟩).text) = false ∧
        (ps.get ⟨k, hk⟩).renderOk = true) ∧
      (∀ q ∈ (runPages i ps st).2.fs, q ∈ st.fs ∨ ∃ fn, q = outPath fn) := by
  induction ps with
  | nil =>
    intro i st
    exact ⟨[], by simp [runPages], by simp [runPages], fun j hj => absurd hj (by simp),
      fun a ha => Or.inl (by simpa [runPages] using ha),
      fun q hq => Or.inl (by simpa [runPages] using hq)⟩
  | cons p ps ih =>
    intro i st
    rcases pageStep_spec i p st with hskip | ⟨hpre, hrend, hrest⟩
    · have hrun : runPages i (p :: ps) st = runPages (i + 1) ps st := by
        simp [runPages, hskip]
      obtain ⟨new, h1, h2, h3, h4, h5⟩ := ih (i + 1) st
      rw [hrun]
      refine ⟨new, h1, h2, ?_, ?_, h5⟩
      · intro j hj
        obtain ⟨k, hk, hacc⟩ := h3 j hj
        refine ⟨k + 1, Nat.succ_lt_succ hk, ?_⟩
        have harith : i + 1 + k = i + (k + 1) := by omega
        rw [← harith]
        exact hacc
      · intro a ha
        rcases h4 a ha with h | ⟨k, hk, hak, hcls, hrk⟩
        · exact Or.inl h
        · exact Or.inr ⟨k + 1, Nat.succ_lt_succ hk, by omega, hcls, hrk⟩
    · rcases hrest with hcall | ⟨f, hacc, hstep⟩ | habort
      · -- AI called, page skipped after the call
        have hrun : runPages i (p :: ps) st =
            runPages (i + 1) ps { st with aiCalls := st.aiCalls ++ [i] } := by
          simp [runPages, hcall]
        obtain ⟨new, h1, h2, h3, h4, h5⟩ := ih (i + 1) { st with aiCalls := st.aiCalls ++ [i] }
        rw [hrun]
        refine ⟨new, h1, h2, ?_, ?_, h5⟩
        · intro j hj
          obtain ⟨k, hk, hacc2⟩ := h3 j hj
          refine ⟨k + 1, Nat.succ_lt_succ hk, ?_⟩
          have harith : i + 1 + k = i + (k + 1) := by omega
          rw [← harith]
          exact hacc2
        · intro a ha
          rcases h4 a ha with h | ⟨k, hk, hak, hcls, hrk⟩
          · rcases List.mem_append.mp h with h6 | h7
            · exact Or.inl h6
            · rcases List.mem_singleton.mp h7 with rfl
              exact Or.inr ⟨0, Nat.succ_pos _, by omega, hpre, hrend⟩
          · exact Or.inr ⟨k + 1, Nat.succ_lt_succ hk, by omega, hcls, hrk⟩
      · -- page accepted
        have hrun : runPages i (p :: ps) st =
            runPages (i + 1) ps { st with files := st.files ++ [f], seq := st.seq + 1,
                                          fs := addPath st.fs (outPath f.filename),
                                          aiCalls := st.aiCalls ++ [i] } := by
          simp [runPages, hstep]
        obtain ⟨new, h1, h2, h3, h4, h5⟩ := ih (i + 1)
          { st with files := st.files ++ [f], seq := st.seq + 1,
                    fs := addPath st.fs (outPath f.filename), aiCalls := st.aiCalls ++ [i] }
        rw [hrun]
        refine ⟨f :: new, ?_, ?_, ?_, ?_, ?_⟩
        · rw [h1]
          simp
        · rw [h2]
          simp only [List.length_cons]
          omega
        · intro j hj
          cases j with
          | zero =>
            refine ⟨0, Nat.succ_pos _, ?_⟩
            have h0 : i + 0 = i := by omega
            have hs0 : st.seq + 0 = st.seq := by omega
            rw [h0, hs0]
            exact hacc
          | succ j2 =>
            have hj2 : j2 < new.length := by
              simpa using Nat.lt_of_succ_lt_succ hj
            obtain ⟨k, hk, hacc2⟩ := h3 j2 hj2
            refine ⟨k + 1, Nat.succ_lt_succ hk, ?_⟩
            have harith : i + 1 + k = i + (k + 1) := by omega
            have harith2 : st.seq + 1 + j2 = st.seq + (j2 + 1) := by omega
            rw [← harith, ← harith2]
            exact hacc2
        · intro a ha
          rcases h4 a ha with h | ⟨k, hk, hak, hcls, hrk⟩
          · rcases List.mem_append.mp h with h6 | h7
            · exact Or.inl h6
            · rcases List.mem_singleton.mp h7 with rfl
              exact Or.inr ⟨0, Nat.succ_pos _, by omega, hpre, hrend⟩
          · exact Or.inr ⟨k + 1, Nat.succ_lt_succ hk, by omega, hcls, hrk⟩
        · intro q hq
          rcases h5 q hq with h | h
          · rcases addPath_mem h with h6 | h7
            · exact Or.inl h6
            · exact Or.inr ⟨f.filename, h7⟩
          · exact Or.inr h
      · -- exception escaped on this page
        obtain ⟨hb, hfl, hsq, hai, hfs⟩ := habort
        have hpair : pageStep i p st = (true, (pageStep i p st).2) := by
          rw [← hb]
        have hrun : runPages i (p :: ps) st = (true, (pageStep i p st).2) := by
          rw [runPages, hpair]
        rw [hrun]
        refine ⟨[], by simpa using hfl, by simpa using hsq, fun j hj => absurd hj (by simp),
          ?_, hfs⟩
        intro a ha
        rw [hai] at ha
        rcases List.mem_append.mp ha with h6 | h7
        · exact Or.inl h6
        · rcases List.mem_singleton.mp h7 with rfl
          exact Or.inr ⟨0, Nat.succ_pos _, by omega, hpre, hrend⟩

theorem process_pdf_spec (pages : List Page) (start : Nat) (name : Chars) :
    (process_pdf (some pages) start name).nextSeq =
      start + (process_pdf (some pages) start name).files.length ∧
    (∀ j (hj : j < (process_pdf (some pages) start name).files.length),
      ∃ k, ∃ hk : k < pages.length,
        acceptsAt k (pages.get ⟨k, hk⟩) (start + j)
          ((process_pdf (some pages) start name).files.get ⟨j, hj⟩)) ∧
    (∀ a ∈ (process_pdf (some pages) start name).aiCalls, ∃ k, ∃ hk : k < pages.length,
      a = k ∧ is_continuation_or_summary_page ((pages.get ⟨k, hk⟩).text) = false ∧
      (pages.get ⟨k, hk⟩).renderOk = true) ∧
    tempPath name ∉ (process_pdf (some pages) start name).fs ∧
    (∀ q ∈ (process_pdf (some pages) start name).fs, ∃ fn, q = outPath fn) := by
  obtain ⟨new, h1, h2, h3, h4, h5⟩ :=
    runPages_spec pages 0 ⟨start, [], [tempPath name], []⟩
  have hout : process_pdf (some pages) start name =
      (if (runPages 0 pages ⟨start, [], [tempPath name], []⟩).1 then
        ⟨[], start, (runPages 0 pages ⟨start, [], [tempPath name], []⟩).2.fs.filter
            (fun q => q ≠ tempPath name), true,
          (runPages 0 pages ⟨start, [], [tempPath name], []⟩).2.aiCalls⟩
      else ⟨(runPages 0 pages ⟨start, [], [tempPath name], []⟩).2.files,
        (runPages 0 pages ⟨start, [], [tempPath name], []⟩).2.seq,
        (runPages 0 pages ⟨start, [], [tempPath name], []⟩).2.fs.filter
            (fun q => q ≠ tempPath name), false,
        (runPages 0 pages ⟨start, [], [tempPath name], []⟩).2.aiCalls⟩) := rfl
  have haiCommon : ∀ a ∈ (runPages 0 pages ⟨start, [], [tempPath name], []⟩).2.aiCalls,
      ∃ k, ∃ hk : k < pages.length,
        a = k ∧ is_continuation_or_summary_page ((pages.get ⟨k, hk⟩).text) = false ∧
        (pages.get ⟨k, hk⟩).renderOk = true := by
    intro a ha
    rcases h4 a ha with h | ⟨k, hk, hak, hcls, hrk⟩
    · simp at h
    · exact ⟨k, hk, by omega, hcls, hrk⟩
  have hfsCommon : ∀ q ∈ (runPages 0 pages ⟨start, [], [tempPath name], []⟩).2.fs.filter
      (fun q => q ≠ tempPath name), ∃ fn, q = outPath fn := by
    intro q hq
    have hq2 := List.mem_filter.mp hq
    rcases h5 q hq2.1 with h | h
    · exfalso
      have : q = tempPath name := by simpa using h
      have hne : q ≠ tempPath name := by simpa using hq2.2
      exact hne this
    · exact h
  have htempCommon : tempPath name ∉
      (runPages 0 pages ⟨start, [], [tempPath name], []⟩).2.fs.filter
        (fun q => q ≠ tempPath name) := by
    intro hq
    have hq2 := List.mem_filter.mp hq
    have : tempPath name ≠ tempPath name := by simpa using hq2.2
    exact this rfl
  cases hb : (runPages 0 pages ⟨start, [], [tempPath name], []⟩).1 with
  | true =>
    rw [hout, if_pos hb]
    exact ⟨by simp, fun j hj => absurd hj (by simp), haiCommon, htempCommon, hfsCommon⟩
  | false =>
    rw [hout, if_neg (by simp [hb])]
    have h1b : (runPages 0 pages ⟨start, [], [tempPath name], []⟩).2.files = new := by
      simpa using h1
    refine ⟨?_, ?_, haiCommon, htempCommon, hfsCommon⟩
    · rw [h2, h1b]
    · intro j hj
      have hj2 : j < new.length := by
        rw [h1b] at hj
        exact hj
      obtain ⟨k, hk, hacc⟩ := h3 j hj2
      refine ⟨k, hk, ?_⟩
      rw [List.get_of_eq h1b ⟨j, hj⟩]
      have h0k : 0 + k = k := by omega
      rw [h0k] at hacc
      exact hacc

/-- Unpack the fields of a file produced by an accepted page. -/
theorem acceptsAt_fields {i : Nat} {p : Page} {s : Nat} {f : GeneratedFile}
    (h : acceptsAt i p s f) :
    f.seqNum = s ∧ f.content = i ∧
    (∃ nm2, f.filename =
      mkFilename (dateStr p.now) s (sanitize_filename nm2) (pyStr f.currency)) ∧
    ∃ v, get_gemini_response p.ai = some v ∧ jget v ("currency".data) = some f.currency := by
  obtain ⟨-, -, v, nm, cur, pt, q, hv, -, -, -, hcur, -, -, -, -, hf⟩ := h
  subst hf
  exact ⟨rfl, rfl, ⟨nm, rfl⟩, v, hv, hcur⟩

/-! ## The claims -/

/-- Claim C1 (code bug): a `payment_total` that is present and truthy but
not parseable as a decimal — here the string "N/A" on page 2 — makes
`float(str(payment_total).replace(',', ''))` raise `ValueError`; the only
handler is the run-level `except`, so `process_pdf` returns
`([], start_sequence)`: the run aborts, page 1's already-accepted
GeneratedFile is discarded and page 3 is never processed, where the claim
(and spec sections 4.3 and 7) require a skip of page 2 only.  The last two
conjuncts show page 1 alone is accepted, so the loss is caused by page 2. -/
theorem C1_unparseable_total_aborts_run :
    (process_pdf (some [pageAlpha, pageBadTotal, pageAlpha]) 1 uploadNm).files = [] ∧
    (process_pdf (some [pageAlpha, pageBadTotal, pageAlpha]) 1 uploadNm).nextSeq = 1 ∧
    (process_pdf (some [pageAlpha, pageBadTotal, pageAlpha]) 1 uploadNm).aborted = true ∧
    (process_pdf (some [pageAlpha]) 1 uploadNm).files = [fileAlpha] ∧
    (process_pdf (some [pageAlpha]) 1 uploadNm).aborted = false :=
  ⟨rfl, rfl, rfl, rfl, rfl⟩

/-- Claim C2: within any run of `process_pdf`, the sequence numbers of the
accepted pages are strictly increasing and never reused, and the
filenames of all GeneratedFile entries are pairwise distinct — even when
two accepted pages share the same simplified name and currency, because
after the fixed-width six-character date stamp the zero-padded
sequence-number segment (delimited by the non-digit underscore) differs. -/
theorem C2_seq_increasing_filenames_distinct
    (doc : Option (List Page)) (start : Nat) (name : Chars) :
    (process_pdf doc start name).files.Pairwise (fun f g => f.seqNum < g.seqNum) ∧
    (process_pdf doc start name).files.Pairwise (fun f g => f.filename ≠ g.filename) := by
  cases doc with
  | none => exact ⟨by simp [process_pdf], by simp [process_pdf]⟩
  | some pages =>
    obtain ⟨-, hidx, -, -, -⟩ := process_pdf_spec pages start name
    by_cases hab : (process_pdf (some pages) start name).aborted = true
    all_goals {
      refine ⟨List.pairwise_iff_get.mpr ?_, List.pairwise_iff_get.mpr ?_⟩
      · intro a b hab2
        obtain ⟨k1, hk1, h1⟩ := hidx a.1 a.2
        obtain ⟨k2, hk2, h2⟩ := hidx b.1 b.2
        have e1 := (acceptsAt_fields h1).1
        have e2 := (acceptsAt_fields h2).1
        rw [show a = ⟨a.1, a.2⟩ from rfl, show b = ⟨b.1, b.2⟩ from rfl, e1, e2]
        omega
      · intro a b hab2
        obtain ⟨k1, hk1, h1⟩ := hidx a.1 a.2
        obtain ⟨k2, hk2, h2⟩ := hidx b.1 b.2
        obtain ⟨nm1, hf1⟩ := (acceptsAt_fields h1).2.2.1
        obtain ⟨nm2, hf2⟩ := (acceptsAt_fields h2).2.2.1
        rw [show a = ⟨a.1, a.2⟩ from rfl, show b = ⟨b.1, b.2⟩ from rfl, hf1, hf2]
        exact mkFilename_inj_seq (by rw [dateStr_len, dateStr_len]) (by omega)
    }

/-- Claim C3: the first accepted page receives `start_sequence`, each
later accepted page exactly one more than the previous (gapless over
acceptances, so skipped or rejected pages consume no number); the
sequence number is zero-padded to at least two digits inside the
filename (in particular `str(5).zfill(2) = "05"` and
`str(6).zfill(2) = "06"`); and the returned next-sequence value is
`start_sequence` plus the number of accepted pages. -/
theorem C3_gapless_sequence_from_start
    (doc : Option (List Page)) (start : Nat) (name : Chars) :
    (process_pdf doc start name).nextSeq =
      start + (process_pdf doc start name).files.length ∧
    (∀ j (hj : j < (process_pdf doc start name).files.length),
      ((process_pdf doc start name).files.get ⟨j, hj⟩).seqNum = start + j ∧
      2 ≤ (zfill2 (((process_pdf doc start name).files.get ⟨j, hj⟩).seqNum)).length ∧
      ∃ date nm2, date.length = 6 ∧
        ((process_pdf doc start name).files.get ⟨j, hj⟩).filename =
          mkFilename date (start + j) (sanitize_filename nm2)
            (pyStr (((process_pdf doc start name).files.get ⟨j, hj⟩).currency))) ∧
    zfill2 5 = ("05".data) ∧ zfill2 6 = ("06".data) := by
  refine ⟨?_, ?_, by decide, by decide⟩
  · cases doc with
    | none => simp [process_pdf]
    | some pages => exact (process_pdf_spec pages start name).1
  · cases doc with
    | none => intro j hj; exact absurd hj (by simp [process_pdf])
    | some pages =>
      intro j hj
      obtain ⟨k, hk, hacc⟩ := (process_pdf_spec pages start name).2.1 j hj
      obtain ⟨e1, -, ⟨nm2, hf⟩, -⟩ := acceptsAt_fields hacc
      refine ⟨e1, ?_, dateStr ((pages.get ⟨k, hk⟩).now), nm2, dateStr_len _, ?_⟩
      · exact zfill2_len _
      · rw [hf]

/-- Claim C4 counterexample: on the text `{malformed` (the claim's own
example, which has no closing brace), the parser returns the empty
mapping — not the distinct `MalformedResponse` signal (`none`) the claim
requires: the `find`/`rfind` fallback slices an empty span, which the code
treats as "no JSON found". -/
theorem C4_counterexample_unclosed_brace :
    parse_model_response ("\x7bmalformed".data) = some (JValue.jobj []) ∧
    (parse_model_response ("\x7bmalformed".data)).isSome = true :=
  ⟨rfl, rfl⟩

/-- Claim C4 (amended): for text that embeds a single well-formed JSON
object between brace-free, backtick-free surroundings, parsing yields
exactly that object; text containing neither brace yields the empty
mapping, not an error; a malformed object with both braces (such as
`{malformed}`) yields the `MalformedResponse` signal (`None`); but the
claim's example `{malformed`, lacking the closing brace, yields the empty
mapping rather than the signal.  Every failure path returns one of these
signal values (the model function is total by construction). -/
theorem C4_response_extraction :
    (∀ pre mid post v,
      (∀ c ∈ pre, c ≠ lbrace ∧ c ≠ rbrace ∧ c ≠ btick) →
      (∀ c ∈ post, c ≠ lbrace ∧ c ≠ rbrace ∧ c ≠ btick) →
      (∀ c ∈ mid, c ≠ btick) →
      jsonLoads (lbrace :: mid ++ [rbrace]) = some v →
      parse_model_response (pre ++ (lbrace :: mid ++ [rbrace]) ++ post) = some v) ∧
    (∀ t, lbrace ∉ t → rbrace ∉ t → parse_model_response t = some (JValue.jobj [])) ∧
    parse_model_response ("\x7bmalformed\x7d".data) = none ∧
    parse_model_response ("\x7bmalformed".data) = some (JValue.jobj []) :=
  ⟨fun _ _ _ _ hpre hpost hmid hload =>
      parse_model_response_embedded hpre hpost hmid hload,
    fun _ h1 h2 => parse_model_response_no_braces h1 h2, rfl, rfl⟩

/-- Witness for C4: the concrete text `resp: {"a": "b"} done` satisfies
the side conditions and parses to exactly the embedded object's fields. -/
theorem C4_response_extraction_witness :
    (∀ c ∈ ("resp: ".data), c ≠ lbrace ∧ c ≠ rbrace ∧ c ≠ btick) ∧
    (∀ c ∈ (" done".data), c ≠ lbrace ∧ c ≠ rbrace ∧ c ≠ btick) ∧
    (∀ c ∈ ("\"a\": \"b\"".data), c ≠ btick) ∧
    jsonLoads (lbrace :: ("\"a\": \"b\"".data) ++ [rbrace]) =
      some (JValue.jobj [(("a".data), JValue.jstr ("b".data))]) ∧
    parse_model_response
        (("resp: ".data) ++ (lbrace :: ("\"a\": \"b\"".data) ++ [rbrace]) ++ (" done".data)) =
      some (JValue.jobj [(("a".data), JValue.jstr ("b".data))]) :=
  ⟨by decide, by decide, by decide, rfl,
    C4_response_extraction.1 ("resp: ".data) ("\"a\": \"b\"".data) (" done".data)
      (JValue.jobj [(("a".data), JValue.jstr ("b".data))])
      (by decide) (by decide) (by decide) rfl⟩

/-- Claim C5 counterexample: a page text carrying both skip signals
("Summary" without "Payment Group", and the footer without
"Fund House :") satisfies the claim's SkipContinuation condition but is
classified `SkipSummary`, because the source checks the summary condition
first — so "SkipContinuation exactly when ..." fails as stated. -/
theorem C5_counterexample_both_signals :
    classifyPage summaryFooterText = ClassificationVerdict.SkipSummary ∧
    classifyPage summaryFooterText ≠ ClassificationVerdict.SkipContinuation ∧
    containsSub summaryFooterText ("Fund House :".data) = false ∧
    containsSub summaryFooterText ("WMC Nominees Ltd".data) = true :=
  ⟨rfl, by decide, rfl, rfl⟩

/-- Claim C5 (amended): the pre-filter classifies a page `SkipSummary`
exactly when its raw text contains "Summary" and lacks "Payment Group";
`SkipContinuation` exactly when it lacks "Fund House :", contains
"WMC Nominees Ltd" and the summary condition does not hold (the summary
check fires first); pages with neither signal proceed (`Process`), which
coincides with `is_continuation_or_summary_page` returning false; and for
every page the pre-filter skips, no AI call is made and no GeneratedFile
is produced for it. -/
theorem C5_prefilter_classification :
    (∀ t, classifyPage t = ClassificationVerdict.SkipSummary ↔
      (containsSub t ("Summary".data) = true ∧
       containsSub t ("Payment Group".data) = false)) ∧
    (∀ t, classifyPage t = ClassificationVerdict.SkipContinuation ↔
      (containsSub t ("Fund House :".data) = false ∧
       containsSub t ("WMC Nominees Ltd".data) = true ∧
       ¬(containsSub t ("Summary".data) = true ∧
         containsSub t ("Payment Group".data) = false))) ∧
    (∀ t, classifyPage t = ClassificationVerdict.Process ↔
      is_continuation_or_summary_page t = false) ∧
    (∀ pages start name i, ∀ hi : i < pages.length,
      classifyPage ((pages.get ⟨i, hi⟩).text) ≠ ClassificationVerdict.Process →
      i ∉ (process_pdf (some pages) start name).aiCalls ∧
      ∀ f ∈ (process_pdf (some pages) start name).files, f.content ≠ i) := by
  have hchar : ∀ t,
      (classifyPage t = ClassificationVerdict.SkipSummary ↔
        (containsSub t ("Summary".data) = true ∧
         containsSub t ("Payment Group".data) = false)) ∧
      (classifyPage t = ClassificationVerdict.SkipContinuation ↔
        (containsSub t ("Fund House :".data) = false ∧
         containsSub t ("WMC Nominees Ltd".data) = true ∧
         ¬(containsSub t ("Summary".data) = true ∧
           containsSub t ("Payment Group".data) = false))) ∧
      (classifyPage t = ClassificationVerdict.Process ↔
        is_continuation_or_summary_page t = false) := by
    intro t
    cases h1 : (containsSub t ("Summary".data) && !containsSub t ("Payment Group".data)) with
    | true =>
      have hc : classifyPage t = ClassificationVerdict.SkipSummary := by
        simp [classifyPage, h1]
      have hb : is_continuation_or_summary_page t = true := by
        simp [is_continuation_or_summary_page, h1]
      rw [Bool.and_eq_true, Bool.not_eq_true'] at h1
      refine ⟨⟨fun _ => h1, fun _ => hc⟩, ⟨fun hh => absurd (hc ▸ hh) (by simp), ?_⟩,
        ⟨fun hh => absurd (hc ▸ hh) (by simp), fun hh => absurd (hb ▸ hh) (by simp)⟩⟩
      rintro ⟨-, -, hno⟩
      exact absurd h1 hno
    | false =>
      cases h2 : (!containsSub t ("Fund House :".data) &&
          containsSub t ("WMC Nominees Ltd".data)) with
      | true =>
        have hc : classifyPage t = ClassificationVerdict.SkipContinuation := by
          simp [classifyPage, h1, h2]
        have hb : is_continuation_or_summary_page t = true := by
          simp [is_continuation_or_summary_page, h1, h2]
        have h1b : ¬(containsSub t ("Summary".data) = true ∧
            containsSub t ("Payment Group".data) = false) := by
          intro hh
          rw [hh.1, hh.2] at h1
          simp at h1
        rw [Bool.and_eq_true, Bool.not_eq_true'] at h2
        refine ⟨⟨fun hh => absurd (hc ▸ hh) (by simp), fun hh => absurd hh h1b⟩,
          ⟨fun _ => ⟨h2.1, h2.2, h1b⟩, fun _ => hc⟩,
          ⟨fun hh => absurd (hc ▸ hh) (by simp), fun hh => absurd (hb ▸ hh) (by simp)⟩⟩
      | false =>
        have hc : classifyPage t = ClassificationVerdict.Process := by
          simp [classifyPage, h1, h2]
        have hb : is_continuation_or_summary_page t = false := by
          simp [is_continuation_or_summary_page, h1, h2]
        have h1b : ¬(containsSub t ("Summary".data) = true ∧
            containsSub t ("Payment Group".data) = false) := by
          intro hh
          rw [hh.1, hh.2] at h1
          simp at h1
        have h2b : ¬(containsSub t ("Fund House :".data) = false ∧
            containsSub t ("WMC Nominees Ltd".data) = true) := by
          intro hh
          rw [hh.1, hh.2] at h2
          simp at h2
        refine ⟨⟨fun hh => absurd (hc ▸ hh) (by simp), fun hh => absurd hh h1b⟩,
          ⟨fun hh => absurd (hc ▸ hh) (by simp), fun hh => absurd ⟨hh.1, hh.2.1⟩ h2b⟩,
          ⟨fun _ => hb, fun _ => hc⟩⟩
  refine ⟨fun t => (hchar t).1, fun t => (hchar t).2.1, fun t => (hchar t).2.2, ?_⟩
  intro pages start name i hi hcls
  obtain ⟨-, hidx, hai, -, -⟩ := process_pdf_spec pages start name
  have hpre : is_continuation_or_summary_page ((pages.get ⟨i, hi⟩).text) = true := by
    cases hb : is_continuation_or_summary_page ((pages.get ⟨i, hi⟩).text) with
    | true => rfl
    | false => exact absurd (((hchar _).2.2).mpr hb) hcls
  constructor
  · intro hmem
    obtain ⟨k, hk, hik, hcls2, -⟩ := hai i hmem
    have : (pages.get ⟨k, hk⟩) = (pages.get ⟨i, hi⟩) := by
      congr 1
      exact (Fin.mk.injEq .. ).mpr (by omega)
    rw [this] at hcls2
    rw [hpre] at hcls2
    simp at hcls2
  · intro f hmem hfc
    obtain ⟨n, hn⟩ := List.get_of_mem hmem
    obtain ⟨k, hk, hacc⟩ := hidx n.1 n.2
    have hgf : (process_pdf (some pages) start name).files.get ⟨n.1, n.2⟩ = f := by
      rw [show (⟨n.1, n.2⟩ : Fin _) = n from rfl, hn]
    rw [hgf] at hacc
    obtain ⟨-, hcont, -, -⟩ := acceptsAt_fields hacc
    obtain ⟨hcls2, -, -⟩ := hacc
    have hki : k = i := by rw [← hfc, hcont]
    subst hki
    have : (pages.get ⟨k, hk⟩) = (pages.get ⟨k, hi⟩) := rfl
    rw [this, hpre] at hcls2
    simp at hcls2

/-- Witness for C5: the summary/footer page is skipped by the pre-filter,
so page index 0 receives no AI call in its one-page run. -/
theorem C5_prefilter_classification_witness :
    classifyPage ((([pageSummary] : List Page).get ⟨0, by decide⟩).text) ≠
      ClassificationVerdict.Process ∧
    0 ∉ (process_pdf (some [pageSummary]) 1 uploadNm).aiCalls :=
  ⟨by decide,
    (C5_prefilter_classification.2.2.2 [pageSummary] 1 uploadNm 0 (by decide) (by decide)).1⟩

/-- Claim C6 counterexample: `date_str = datetime.now().strftime('%y%m%d')`
is evaluated inside the loop, once per accepted page; in a run whose
clock reads 2025-01-01 while page 1 is handled and 2025-01-02 while
page 2 is handled, the two generated filenames carry different date
stamps — the stamp is not a constant run-start date. -/
theorem C6_counterexample_date_not_constant :
    (process_pdf (some [pageAlpha, pageAlphaDay2]) 1 uploadNm).files.map
        (fun f => (f.filename.drop 1).take 6) = [("250101".data), ("250102".data)] ∧
    ("250101".data) ≠ ("250102".data) :=
  ⟨rfl, by decide⟩

/-- Claim C6 (amended): every generated filename follows the template
`S<YYMMDD>-<seq zero-padded to 2 digits>_<sanitized name>_<currency>-order
details.pdf`, where the YYMMDD stamp is the date observed by
`datetime.now()` while that page is accepted — re-evaluated per page, not
fixed at run start (so it is constant only for runs that do not cross a
date boundary). -/
theorem C6_filename_template_per_page_date
    (pages : List Page) (start : Nat) (name : Chars) :
    ∀ f ∈ (process_pdf (some pages) start name).files,
      ∃ k, ∃ hk : k < pages.length, ∃ nm2,
        f.content = k ∧
        f.filename = mkFilename (dateStr ((pages.get ⟨k, hk⟩).now)) f.seqNum
          (sanitize_filename nm2) (pyStr f.currency) := by
  intro f hmem
  obtain ⟨n, hn⟩ := List.get_of_mem hmem
  obtain ⟨k, hk, hacc⟩ := (process_pdf_spec pages start name).2.1 n.1 n.2
  have hgf : (process_pdf (some pages) start name).files.get ⟨n.1, n.2⟩ = f := by
    rw [show (⟨n.1, n.2⟩ : Fin _) = n from rfl, hn]
  rw [hgf] at hacc
  obtain ⟨hseq, hcont, ⟨nm2, hf⟩, -⟩ := acceptsAt_fields hacc
  exact ⟨k, hk, nm2, hcont, by rw [hf, hseq]⟩

/-- Witness for C6: the file of the one-page `pageAlpha` run carries the
stamp of that page's date. -/
theorem C6_filename_template_per_page_date_witness :
    ∃ k, ∃ hk : k < ([pageAlpha] : List Page).length, ∃ nm2,
      fileAlpha.content = k ∧
      fileAlpha.filename = mkFilename (dateStr ((([pageAlpha] : List Page).get ⟨k, hk⟩).now))
        fileAlpha.seqNum (sanitize_filename nm2) (pyStr fileAlpha.currency) :=
  C6_filename_template_per_page_date [pageAlpha] 1 uploadNm fileAlpha
    (List.mem_singleton.mpr rfl)

/-- Claim C7 counterexample: the code stores and uses `currency` exactly
as the AI returned it; with the reply currency `" usd "` the stored value
and the filename keep the lowercase, untrimmed `" usd "`, while the
spec's uppercase-and-trim normalization would give `"USD"` — so the value
is not uppercased or trimmed before being stored or used. -/
theorem C7_counterexample_currency_raw :
    (process_pdf (some [pageLowerCur]) 1 uploadNm).files.map (fun f => f.currency) =
      [JValue.jstr (" usd ".data)] ∧
    (process_pdf (some [pageLowerCur]) 1 uploadNm).files.map (fun f => f.filename) =
      [("S250101-01_Gamma_ usd -order details.pdf".data)] ∧
    upperTrimSpec (" usd ".data) ≠ (" usd ".data) :=
  ⟨rfl, rfl, by decide⟩

/-- Claim C7 (amended): the currency extracted from the parsed mapping is
passed through unchanged — neither uppercased, nor trimmed, nor validated
against an ISO list — both into the stored GeneratedFile entry and into
the filename (where its `str()` rendering is interpolated). -/
theorem C7_currency_passthrough (pages : List Page) (start : Nat) (name : Chars) :
    ∀ f ∈ (process_pdf (some pages) start name).files,
      ∃ k, ∃ hk : k < pages.length, ∃ v,
        get_gemini_response ((pages.get ⟨k, hk⟩).ai) = some v ∧
        jget v ("currency".data) = some f.currency ∧
        ∃ nm2, f.filename = mkFilename (dateStr ((pages.get ⟨k, hk⟩).now)) f.seqNum
          (sanitize_filename nm2) (pyStr f.currency) := by
  intro f hmem
  obtain ⟨n, hn⟩ := List.get_of_mem hmem
  obtain ⟨k, hk, hacc⟩ := (process_pdf_spec pages start name).2.1 n.1 n.2
  have hgf : (process_pdf (some pages) start name).files.get ⟨n.1, n.2⟩ = f := by
    rw [show (⟨n.1, n.2⟩ : Fin _) = n from rfl, hn]
  rw [hgf] at hacc
  obtain ⟨hseq, -, ⟨nm2, hf⟩, v, hv, hcur⟩ := acceptsAt_fields hacc
  exact ⟨k, hk, v, hv, hcur, nm2, by rw [hf, hseq]⟩

/-- Witness for C7: in the `pageLowerCur` run the stored currency is the
raw `" usd "` value taken from the parsed reply. -/
theorem C7_currency_passthrough_witness :
    ∃ k, ∃ hk : k < ([pageLowerCur] : List Page).length, ∃ v,
      get_gemini_response ((([pageLowerCur] : List Page).get ⟨k, hk⟩).ai) = some v ∧
      jget v ("currency".data) = some fileGamma.currency ∧
      ∃ nm2, fileGamma.filename = mkFilename
        (dateStr ((([pageLowerCur] : List Page).get ⟨k, hk⟩).now)) fileGamma.seqNum
        (sanitize_filename nm2) (pyStr fileGamma.currency) :=
  C7_currency_passthrough [pageLowerCur] 1 uploadNm fileGamma
    (List.mem_singleton.mpr rfl)

/-- Claim C8 counterexample: after a normal, non-aborted one-page run the
single-page extract written under `output/` is still on disk — the
intermediate extracts are never deleted, so not all of the run's on-disk
artifacts are removed on every exit path. -/
theorem C8_counterexample_extract_retained :
    (process_pdf (some [pageAlpha]) 1 uploadNm).aborted = false ∧
    (process_pdf (some [pageAlpha]) 1 uploadNm).fs =
      [("output/S250101-01_Alpha_USD-order details.pdf".data)] ∧
    (process_pdf (some [pageAlpha]) 1 uploadNm).fs ≠ [] :=
  ⟨rfl, rfl, by decide⟩

/-- Claim C8 (amended): on every exit path (normal completion, per-page
rejection, run-level abort, and failure to open the document) the
`finally:` block deletes the uploaded source copy under `temp/`, and
every path of this run still on disk afterwards is a single-page extract
under `output/` — those extracts are retained, not deleted. -/
theorem C8_cleanup_removes_upload_only
    (doc : Option (List Page)) (start : Nat) (name : Chars) :
    tempPath name ∉ (process_pdf doc start name).fs ∧
    ∀ q ∈ (process_pdf doc start name).fs, ∃ fn, q = outPath fn := by
  cases doc with
  | none =>
    constructor
    · intro h
      have h2 := List.mem_filter.mp h
      have : tempPath name ≠ tempPath name := by simpa using h2.2
      exact this rfl
    · intro q hq
      have h2 := List.mem_filter.mp hq
      have hmem : q ∈ [tempPath name] := h2.1
      have : q = tempPath name := List.mem_singleton.mp hmem
      have hne : q ≠ tempPath name := by simpa using h2.2
      exact absurd this hne
  | some pages =>
    exact ⟨(process_pdf_spec pages start name).2.2.2.1,
      (process_pdf_spec pages start name).2.2.2.2⟩

/-- Claim C9: when the parsed AI response `ai_results` is truthy but not
a mapping (for example a JSON array), the `isinstance(ai_results, dict)`
guard of `split.py` lines 174-181 makes the page a skip: no exception is
raised, no GeneratedFile is appended, the sequence counter and the disk
state are untouched, and control falls through to the next loop
iteration.  The theorem is stated at `handle_ai_results`, the embedding
of exactly those lines, with `ai_results` supplied directly: the
extraction slice starts at a brace and strict `json.loads` then only
yields an object, so the guard cannot be reached through
`get_gemini_response` itself — it is defensive. -/
theorem C9_truthy_non_mapping_skipped (i : Nat) (p : Page) (st : RunSt) (v : JValue)
    (ht : truthy v = true) (hd : isDict v = false) :
    handle_ai_results i p st (some v) = (false, st) := by
  simp [handle_ai_results, ht, hd]

/-- Witness for C9: a non-empty JSON array is truthy and not a dict, and
the handler leaves the state unchanged without raising. -/
theorem C9_truthy_non_mapping_skipped_witness :
    truthy (JValue.jarr [JValue.jnum 1 0]) = true ∧
    isDict (JValue.jarr [JValue.jnum 1 0]) = false ∧
    handle_ai_results 0 pageAlpha stSample (some (JValue.jarr [JValue.jnum 1 0])) =
      (false, stSample) :=
  ⟨by decide, by decide,
    C9_truthy_non_mapping_skipped 0 pageAlpha stSample (JValue.jarr [JValue.jnum 1 0])
      (by decide) (by decide)⟩

/-- Claim C10: if the parsed mapping has all three required keys but any
value is falsy — `payment_total` equal to the JSON number `0`, an empty
string name or currency — the `if chosen_name and currency and
payment_total` test fails, so the page is rejected: no exception, no
GeneratedFile, the sequence counter and disk state unchanged, and the
loop continues with the next page, even though `0` is parseable as a
decimal. -/
theorem C10_falsy_required_field_rejected
    (i : Nat) (p : Page) (st : RunSt) (ps : List Page) (v a b c : JValue)
    (hv : get_gemini_response p.ai = some v)
    (ha : jget v ("simplified_name".data) = some a)
    (hb : jget v ("currency".data) = some b)
    (hc : jget v ("payment_total".data) = some c)
    (hfal : truthy a = false ∨ truthy b = false ∨ truthy c = false) :
    ∃ st2, pageStep i p st = (false, st2) ∧ st2.files = st.files ∧
      st2.seq = st.seq ∧ st2.fs = st.fs ∧
      runPages i (p :: ps) st = runPages (i + 1) ps st2 := by
  cases hpre : is_continuation_or_summary_page p.text with
  | true =>
    have hps : pageStep i p st = (false, st) := by simp [pageStep, hpre]
    exact ⟨st, hps, rfl, rfl, rfl, by rw [runPages, hps]⟩
  | false =>
    cases hrend : p.renderOk with
    | false =>
      have hps : pageStep i p st = (false, st) := by simp [pageStep, hpre, hrend]
      exact ⟨st, hps, rfl, rfl, rfl, by rw [runPages, hps]⟩
    | true =>
      have hcond : (optTruthy (jget v ("simplified_name".data)) &&
          optTruthy (jget v ("currency".data)) &&
          optTruthy (jget v ("payment_total".data))) = false := by
        rcases hfal with h | h | h <;> simp [optTruthy, ha, hb, hc, h]
      have hnp : ∀ st3 : RunSt, handle_ai_results i p st3 (some v) = (false, st3) := by
        intro st3
        cases htv : truthy v <;> cases hdv : isDict v <;>
          simp [handle_ai_results, htv, hdv, hcond]
      have hps : pageStep i p st = (false, { st with aiCalls := st.aiCalls ++ [i] }) := by
        rw [show pageStep i p st = handle_ai_results i p
            { st with aiCalls := st.aiCalls ++ [i] } (get_gemini_response p.ai) from by
          simp [pageStep, hpre, hrend], hv, hnp]
      exact ⟨{ st with aiCalls := st.aiCalls ++ [i] }, hps, rfl, rfl, rfl,
        by rw [runPages, hps]⟩

/-- Witness for C10: `pageZeroTotal`'s reply parses to a mapping with all
three keys where `payment_total` is the JSON number `0` (falsy though
parseable); the page is rejected and processing continues. -/
theorem C10_falsy_required_field_rejected_witness :
    get_gemini_response pageZeroTotal.ai = some vZero ∧
    jget vZero ("payment_total".data) = some (JValue.jnum 0 0) ∧
    truthy (JValue.jnum 0 0) = false ∧
    ∃ st2, pageStep 0 pageZeroTotal stSample = (false, st2) ∧
      st2.files = stSample.files ∧ st2.seq = stSample.seq ∧ st2.fs = stSample.fs ∧
      runPages 0 [pageZeroTotal] stSample = runPages 1 [] st2 :=
  ⟨rfl, rfl, by decide,
    C10_falsy_required_field_rejected 0 pageZeroTotal stSample [] vZero
      (JValue.jstr ("Delta".data)) (JValue.jstr ("USD".data)) (JValue.jnum 0 0)
      rfl rfl rfl rfl (Or.inr (Or.inr (by decide)))⟩

/-- Witness for C2 at a concrete two-page accepted run. -/
theorem C2_seq_increasing_filenames_distinct_witness :
    (process_pdf (some [pageAlpha, pageAlphaDay2]) 1 uploadNm).files.Pairwise
      (fun f g => f.filename ≠ g.filename) :=
  (C2_seq_increasing_filenames_distinct (some [pageAlpha, pageAlphaDay2]) 1 uploadNm).2

/-- Witness for C3 at the spec's scenario start value 5. -/
theorem C3_gapless_sequence_from_start_witness :
    (process_pdf (some [pageAlpha, pageAlphaDay2]) 5 uploadNm).nextSeq =
      5 + (process_pdf (some [pageAlpha, pageAlphaDay2]) 5 uploadNm).files.length :=
  (C3_gapless_sequence_from_start (some [pageAlpha, pageAlphaDay2]) 5 uploadNm).1

/-- Witness for C8 at a concrete accepted run: the uploaded copy is gone. -/
theorem C8_cleanup_removes_upload_only_witness :
    tempPath uploadNm ∉ (process_pdf (some [pageAlpha]) 1 uploadNm).fs :=
  (C8_cleanup_removes_upload_only (some [pageAlpha]) 1 uploadNm).1

end PdfProc
